import Mathlib

/-! # audio_filter.c : generator, one-pole low-pass filter, RMS analyzer

A shallow embedding of `examples/audio_processing/audio_filter.c`.

* The C `float`s are idealised as elements of a field `F` (exact arithmetic:
  no rounding, no overflow, no NaN).  The definitions are generic in `F`, so
  they run on `ℚ` and are reasoned about on `ℝ`.
* The analyzer only needs `+`, `*`, `/`, `0` and the cast of `SAMPLES`, so it also runs
  on the values `Fl F`: the numbers of `F` together with NaN.
* The library functions `sinf` and `sqrtf` are parameters of the procedures
  that call them.
* The global variables form the record `State`; every procedure is a function
  `State F → Option (State F)`, where `none` stands for an array access outside
  the array.
* What `printf` writes is recorded, line by line, in the field `stdout`; the
  numbers are kept as they are handed to `printf` (the `%.4f` formatting is not
  modelled).
-/

namespace AudioFilter

/-! ## Constants -/

/-- The macro `SAMPLES`, defined as `1024`. -/
def SAMPLES : Nat := 1024

/-- The macro `GAIN`, defined as `0.75f`. -/
def GAIN {F : Type} [Field F] : F := 0.75

/-- The macro `CUTOFF_FREQ`, defined as `0.1f` (never used by the code). -/
def CUTOFF_FREQ {F : Type} [Field F] : F := 0.1

/-- The macro `PI`, defined as `3.14159265359f`. -/
def PI {F : Type} [Field F] : F := 3.14159265359

/-! ## Program state -/

/-- One line written by `printf`, with the values it is given. -/
inductive Line (F : Type) where
  | banner : Line F
  | rule : Line F
  | generating : Line F
  | applying : Line F
  | analysisHeader : Line F
  | inputRms (v : F) : Line F
  | outputRms (v : F) : Line F
  | gain (v : Option F) : Line F
  | sampleHeader : Line F
  | sample (i : Nat) (x y : F) : Line F
  | completed : Line F

/-- The global variables of the program, and the text written so far. -/
structure State (F : Type) where
  input_buffer : List F
  output_buffer : List F
  alpha : F
  prev_output : F
  stdout : List (Line F)

/-- The state at program start: both arrays zero-initialised, `alpha = 0.1f`,
`prev_output = 0.0f`, nothing printed. -/
def State.initial {F : Type} [Field F] : State F where
  input_buffer := List.replicate SAMPLES 0
  output_buffer := List.replicate SAMPLES 0
  alpha := 0.1
  prev_output := 0
  stdout := []

/-- Both arrays have their declared size `SAMPLES`. -/
def State.WellFormed {F : Type} (s : State F) : Prop :=
  s.input_buffer.length = SAMPLES ∧ s.output_buffer.length = SAMPLES

/-- What `printf` does: append lines to the text written so far. -/
def emit {F : Type} (s : State F) (ls : List (Line F)) : State F :=
  { s with stdout := s.stdout ++ ls }

/-! ## Array access and loops -/

/-- Read `buf[i]`; `none` when `i` is outside the array. -/
def readAt {F : Type} (buf : List F) (i : Nat) : Option F := buf[i]?

/-- Write `buf[i] = v`; `none` when `i` is outside the array. -/
def writeAt {F : Type} (buf : List F) (i : Nat) (v : F) : Option (List F) :=
  if i < buf.length then some (buf.set i v) else none

/-- The loop `for (int i = 0; i < n; i++) body`, threading the loop state. -/
def forLoop {σ : Type} (n : Nat) (body : σ → Nat → Option σ) (s : σ) : Option σ :=
  (List.range n).foldlM body s

/-- Division of idealised floats.  A quotient by zero is not a number of the
field (the machine gives an infinity or a NaN); it is recorded as `none`. -/
def fdiv {F : Type} [Zero F] [Div F] [DecidableEq F] (x y : F) : Option F :=
  if y = 0 then none else some (x / y)

/-! ## The procedures -/

/-- Body of the loop of `generate_test_signal` at index `i`. -/
def generate_body {F : Type} [Field F] (sinf : F → F) (s : State F) (i : Nat) :
    Option (State F) := do
  let buf ← writeAt s.input_buffer i
    (sinf (2 * PI * (i : F) * 0.05) + 0.5 * sinf (2 * PI * (i : F) * 0.3))
  pure { s with input_buffer := buf }

/-- The procedure `void generate_test_signal()`. -/
def generate_test_signal {F : Type} [Field F] (sinf : F → F) (s : State F) :
    Option (State F) :=
  forLoop SAMPLES (generate_body sinf) (emit s [Line.generating])

/-- Body of the loop of `apply_lowpass_filter` at index `i`, the post-gain
taken as the parameter `gain`:
`output_buffer[i] = alpha * input_buffer[i] + (1.0f - alpha) * prev_output;`
`prev_output = output_buffer[i];`
`output_buffer[i] *= gain;` -/
def lowpass_body {F : Type} [Field F] (gain : F) (s : State F) (i : Nat) :
    Option (State F) := do
  let x ← readAt s.input_buffer i
  let buf1 ← writeAt s.output_buffer i (s.alpha * x + (1 - s.alpha) * s.prev_output)
  let s1 : State F := { s with output_buffer := buf1 }
  let y ← readAt s1.output_buffer i
  let s2 : State F := { s1 with prev_output := y }
  let z ← readAt s2.output_buffer i
  let buf2 ← writeAt s2.output_buffer i (z * gain)
  pure { s2 with output_buffer := buf2 }

/-- The first `n` iterations of the loop of `apply_lowpass_filter`. -/
def lowpass_loop {F : Type} [Field F] (gain : F) (n : Nat) (s : State F) :
    Option (State F) :=
  forLoop n (lowpass_body gain) s

/-- The procedure `apply_lowpass_filter` with the post-gain as a parameter. -/
def lowpass_pass {F : Type} [Field F] (gain : F) (s : State F) : Option (State F) :=
  lowpass_loop gain SAMPLES (emit s [Line.applying])

/-- The procedure `void apply_lowpass_filter()`. -/
def apply_lowpass_filter {F : Type} [Field F] (s : State F) : Option (State F) :=
  lowpass_pass GAIN s

/-- Body of the loop of `analyze_signal` at index `i`; the loop state is the
pair of locals `(input_rms, output_rms)`. -/
def analyze_body {F : Type} [Add F] [Mul F] (s : State F) (acc : F × F) (i : Nat) :
    Option (F × F) := do
  let x ← readAt s.input_buffer i
  let x' ← readAt s.input_buffer i
  let y ← readAt s.output_buffer i
  let y' ← readAt s.output_buffer i
  pure (acc.1 + x * x', acc.2 + y * y')

/-- The accumulating loop of `analyze_signal`, from `(0.0f, 0.0f)`. -/
def analyze_sums {F : Type} [Zero F] [Add F] [Mul F] (s : State F) : Option (F × F) :=
  forLoop SAMPLES (analyze_body s) (0, 0)

/-- The procedure `void analyze_signal()`. -/
def analyze_signal {F : Type} [Zero F] [Add F] [Mul F] [Div F] [NatCast F] [DecidableEq F]
    (sqrtf : F → F) (s : State F) : Option (State F) := do
  let acc ← analyze_sums s
  let input_rms := sqrtf (acc.1 / (SAMPLES : F))
  let output_rms := sqrtf (acc.2 / (SAMPLES : F))
  pure (emit s
    [Line.analysisHeader, Line.inputRms input_rms, Line.outputRms output_rms,
     Line.gain (fdiv output_rms input_rms)])

/-- The line `Input[i]: … -> Output[i]: …` of the driver. -/
def print_sample {F : Type} (i : Nat) (s : State F) : Option (State F) := do
  let x ← readAt s.input_buffer i
  let y ← readAt s.output_buffer i
  pure (emit s [Line.sample i x y])

/-- The driver `int main()`: the final state and the exit status. -/
def main {F : Type} [Field F] [DecidableEq F] (sinf sqrtf : F → F) (s : State F) :
    Option (State F × Int) := do
  let s0 := emit s [Line.banner, Line.rule]
  let s1 ← generate_test_signal sinf s0
  let s2 ← apply_lowpass_filter s1
  let s3 ← analyze_signal sqrtf s2
  let s4 := emit s3 [Line.sampleHeader]
  let s5 ← print_sample 0 s4
  let s6 ← print_sample 100 s5
  let s7 ← print_sample 500 s6
  pure (emit s7 [Line.completed], 0)

/-! ## Auxiliary definitions -/

/-- The array whose first `n` cells hold `f 0, …, f (n-1)` and whose other cells are
those of `l`. -/
def filled {F : Type} (f : Nat → F) (n : Nat) (l : List F) : List F :=
  (List.range n).map f ++ l.drop n

/-- Value of `prev_output` after `k` iterations of the filter loop, started with
coefficient `a` and `prev_output = p` on the samples `input`. -/
def filterState {F : Type} [Field F] (a p : F) (input : List F) : Nat → F
  | 0 => p
  | k + 1 => a * input.getD k 0 + (1 - a) * filterState a p input k

/-- State after `n` iterations of the filter loop run with post-gain `gain` from `s`. -/
def lowpassAfter {F : Type} [Field F] (gain : F) (n : Nat) (s : State F) : State F :=
  { s with
    output_buffer :=
      filled (fun k => filterState s.alpha s.prev_output s.input_buffer (k + 1) * gain) n
        s.output_buffer
    prev_output := filterState s.alpha s.prev_output s.input_buffer n }

/-- State after `n` iterations of the loop of `generate_test_signal` run from `s`. -/
def generatedAfter {F : Type} [Field F] (sinf : F → F) (n : Nat) (s : State F) : State F :=
  { s with
    input_buffer :=
      filled (fun i => sinf (2 * PI * (i : F) * 0.05) + 0.5 * sinf (2 * PI * (i : F) * 0.3)) n
        s.input_buffer }

/-- The input buffer holding `1` at index `0` and `0` elsewhere. -/
def impulse {F : Type} [Field F] : List F := 1 :: List.replicate (SAMPLES - 1) 0

/-- The initial state with the impulse as input buffer. -/
def impulseState {F : Type} [Field F] : State F :=
  { (State.initial : State F) with input_buffer := impulse }

/-- The initial state with `prev_output` set to `1`. -/
def primedState {F : Type} [Field F] : State F :=
  { (State.initial : State F) with prev_output := 1 }

/-- The initial state with the impulse as input and an output buffer already holding `7`s. -/
def usedImpulseState {F : Type} [Field F] : State F :=
  { (impulseState : State F) with output_buffer := List.replicate SAMPLES 7 }

/-! ## Reference definitions, from the specification -/

/-- Reference sum of the specification: `Σ buf[i]²` over `i` in `[0, 1024)`. -/
def sumSquares {F : Type} [Field F] (buf : List F) : F :=
  ∑ i ∈ Finset.range 1024, buf.getD i 0 ^ 2

/-- Reference RMS of the specification: `sqrt ((Σ buf[i]²) / 1024)`. -/
def rms {F : Type} [Field F] (sqrtf : F → F) (buf : List F) : F :=
  sqrtf (sumSquares buf / 1024)

/-- Reference recurrence of the specification for the pre-gain values:
`raw[0] = 0.1 * input[0] + 0.9 * 0` and `raw[i] = 0.1 * input[i] + 0.9 * raw[i-1]`. -/
def raw {F : Type} [Field F] (input : List F) : Nat → F
  | 0 => 0.1 * input.getD 0 0 + 0.9 * 0
  | i + 1 => 0.1 * input.getD (i + 1) 0 + 0.9 * raw input i

/-- Reference recurrence of the specification for the pre-gain values, from any filter
state: `raw[i] = a * input[i] + (1 - a) * prev`, where `prev` is `p` before index `0` and
`raw[i-1]` afterwards. -/
def rawFrom {F : Type} [Field F] (a p : F) (input : List F) : Nat → F
  | 0 => a * input.getD 0 0 + (1 - a) * p
  | i + 1 => a * input.getD (i + 1) 0 + (1 - a) * rawFrom a p input i

/-- The buffer `a * x + b * y`, sample by sample. -/
def combine {F : Type} [Field F] (a b : F) (x y : List F) : List F :=
  List.zipWith (fun u v => a * u + b * v) x y

/-- Reference closed form of the specification for the output of the filter:
`0.75 * Σ_{k ≤ i} 0.1 * 0.9 ^ (i - k) * input[k]`. -/
def closedForm {F : Type} [Field F] (input : List F) (i : Nat) : F :=
  0.75 * ∑ k ∈ Finset.range (i + 1), 0.1 * 0.9 ^ (i - k) * input.getD k 0

/-- The initial state whose input buffer is `2 * impulse + 3 * 0`. -/
def combinedState {F : Type} [Field F] : State F :=
  { (State.initial : State F) with
    input_buffer := combine 2 3 impulse (List.replicate SAMPLES 0) }

/-- Reference closed form of the specification for the generated signal,
`sin (2π · i · 0.05) + 0.5 · sin (2π · i · 0.3)`, for a sine `sinf` and a value `p` of π. -/
def signal {F : Type} [Field F] (sinf : F → F) (p : F) (i : Nat) : F :=
  sinf (2 * p * (i : F) * 0.05) + 0.5 * sinf (2 * p * (i : F) * 0.3)

/-! ## Float values with NaN -/

/-- A float value as a buffer may hold it: a number of `F`, or NaN.  Arithmetic on
numbers is that of `F`; infinities, rounding and overflow are not modelled. -/
inductive Fl (F : Type) where
  | num (x : F) : Fl F
  | nan : Fl F

/-- Addition of float values: NaN as soon as an operand is NaN. -/
def Fl.add {F : Type} [Add F] : Fl F → Fl F → Fl F
  | Fl.num x, Fl.num y => Fl.num (x + y)
  | _, _ => Fl.nan

/-- Multiplication of float values: NaN as soon as an operand is NaN. -/
def Fl.mul {F : Type} [Mul F] : Fl F → Fl F → Fl F
  | Fl.num x, Fl.num y => Fl.num (x * y)
  | _, _ => Fl.nan

/-- Division of float values: NaN as soon as an operand is NaN.  (The analyzer divides
numbers by `1024`, and by `input_rms` only through `fdiv`.) -/
def Fl.div {F : Type} [Div F] : Fl F → Fl F → Fl F
  | Fl.num x, Fl.num y => Fl.num (x / y)
  | _, _ => Fl.nan

/-- Comparison `≤` of float values: false as soon as an operand is NaN. -/
def Fl.le {F : Type} [LE F] : Fl F → Fl F → Prop
  | Fl.num x, Fl.num y => x ≤ y
  | _, _ => False

/-- A library function on numbers (such as `sqrtf` on numbers `≥ 0`), extended to float
values: NaN in, NaN out. -/
def Fl.lift {F : Type} (f : F → F) : Fl F → Fl F
  | Fl.num x => Fl.num (f x)
  | Fl.nan => Fl.nan

instance Fl.instAdd {F : Type} [Add F] : Add (Fl F) := ⟨Fl.add⟩

instance Fl.instMul {F : Type} [Mul F] : Mul (Fl F) := ⟨Fl.mul⟩

instance Fl.instDiv {F : Type} [Div F] : Div (Fl F) := ⟨Fl.div⟩

instance Fl.instZero {F : Type} [Zero F] : Zero (Fl F) := ⟨Fl.num 0⟩

instance Fl.instNatCast {F : Type} [NatCast F] : NatCast (Fl F) := ⟨fun n => Fl.num (n : F)⟩

instance Fl.instLE {F : Type} [LE F] : LE (Fl F) := ⟨Fl.le⟩

instance Fl.instDecidableEq {F : Type} [DecidableEq F] : DecidableEq (Fl F)
  | Fl.num x, Fl.num y =>
    if h : x = y then isTrue (congrArg Fl.num h) else isFalse (fun e => h (Fl.num.inj e))
  | Fl.num _, Fl.nan => isFalse (fun e => Fl.noConfusion e)
  | Fl.nan, Fl.num _ => isFalse (fun e => Fl.noConfusion e)
  | Fl.nan, Fl.nan => isTrue rfl

/-- The program state whose input buffer holds `first` at index `0` and the number `0`
elsewhere, with an all-zero output buffer. -/
def sampleState {F : Type} [Field F] (first : Fl F) : State (Fl F) where
  input_buffer := first :: List.replicate (SAMPLES - 1) (Fl.num 0)
  output_buffer := List.replicate SAMPLES (Fl.num 0)
  alpha := Fl.num 0.1
  prev_output := Fl.num 0
  stdout := []

/-! ## Loops and arrays: general facts -/

theorem forLoop_zero {σ : Type} (body : σ → Nat → Option σ) (s : σ) :
    forLoop 0 body s = some s := by
  simp [forLoop]

theorem forLoop_succ {σ : Type} (n : Nat) (body : σ → Nat → Option σ) (s : σ) :
    forLoop (n + 1) body s = (forLoop n body s).bind (fun t => body t n) := by
  simp [forLoop, List.range_succ, List.foldlM_append]

theorem filled_zero {F : Type} (f : Nat → F) (l : List F) : filled f 0 l = l := by
  simp [filled]

theorem filled_length {F : Type} (f : Nat → F) (n : Nat) (l : List F) (h : n ≤ l.length) :
    (filled f n l).length = l.length := by
  simp [filled]; omega

theorem filled_set {F : Type} (f : Nat → F) (n : Nat) (l : List F) (h : n < l.length) :
    (filled f n l).set n (f n) = filled f (n + 1) l := by
  unfold filled
  rw [List.set_append_right _ _ (by simp)]
  simp only [List.length_map, List.length_range, Nat.sub_self, List.range_succ, List.map_append,
    List.map_cons, List.map_nil, List.append_assoc, List.singleton_append]
  rw [List.drop_eq_getElem_cons h, List.set_cons_zero]

theorem filled_getElem?_lt {F : Type} (f : Nat → F) (n : Nat) (l : List F) (i : Nat)
    (h : i < n) : (filled f n l)[i]? = some (f i) := by
  unfold filled
  rw [List.getElem?_append_left (by simpa using h)]
  simp [h]

theorem filled_getElem?_ge {F : Type} (f : Nat → F) (n : Nat) (l : List F) (i : Nat)
    (h : n ≤ i) : (filled f n l)[i]? = l[i]? := by
  unfold filled
  rw [List.getElem?_append_right (by simpa using h)]
  simp
  congr 1; omega

theorem filled_all {F : Type} (f : Nat → F) (n : Nat) (l : List F) (h : l.length = n) :
    filled f n l = (List.range n).map f := by
  subst h
  simp [filled]

theorem zeros_getD {F : Type} [Field F] (n k : Nat) :
    (List.replicate n (0 : F)).getD k 0 = 0 := by
  rw [List.getD_eq_getElem?_getD, List.getElem?_replicate]
  split <;> rfl

/-! ## Projections of the auxiliary states -/

theorem emit_input_buffer {F : Type} (s : State F) (ls : List (Line F)) :
    (emit s ls).input_buffer = s.input_buffer := rfl

theorem emit_output_buffer {F : Type} (s : State F) (ls : List (Line F)) :
    (emit s ls).output_buffer = s.output_buffer := rfl

theorem emit_alpha {F : Type} (s : State F) (ls : List (Line F)) :
    (emit s ls).alpha = s.alpha := rfl

theorem emit_prev_output {F : Type} (s : State F) (ls : List (Line F)) :
    (emit s ls).prev_output = s.prev_output := rfl

theorem emit_stdout {F : Type} (s : State F) (ls : List (Line F)) :
    (emit s ls).stdout = s.stdout ++ ls := rfl

theorem emit_wellFormed {F : Type} (s : State F) (ls : List (Line F)) (h : s.WellFormed) :
    (emit s ls).WellFormed := by
  unfold State.WellFormed at h ⊢
  rw [emit_input_buffer, emit_output_buffer]
  exact h

theorem lowpassAfter_input_buffer {F : Type} [Field F] (gain : F) (n : Nat) (s : State F) :
    (lowpassAfter gain n s).input_buffer = s.input_buffer := rfl

theorem lowpassAfter_alpha {F : Type} [Field F] (gain : F) (n : Nat) (s : State F) :
    (lowpassAfter gain n s).alpha = s.alpha := rfl

theorem lowpassAfter_stdout {F : Type} [Field F] (gain : F) (n : Nat) (s : State F) :
    (lowpassAfter gain n s).stdout = s.stdout := rfl

theorem lowpassAfter_prev_output {F : Type} [Field F] (gain : F) (n : Nat) (s : State F) :
    (lowpassAfter gain n s).prev_output =
      filterState s.alpha s.prev_output s.input_buffer n := rfl

theorem lowpassAfter_output_buffer {F : Type} [Field F] (gain : F) (n : Nat) (s : State F) :
    (lowpassAfter gain n s).output_buffer =
      filled (fun k => filterState s.alpha s.prev_output s.input_buffer (k + 1) * gain) n
        s.output_buffer := rfl

theorem lowpassAfter_output_length {F : Type} [Field F] (gain : F) (n : Nat) (s : State F)
    (h : n ≤ s.output_buffer.length) :
    (lowpassAfter gain n s).output_buffer.length = s.output_buffer.length := by
  rw [lowpassAfter_output_buffer, filled_length _ _ _ h]

theorem lowpassAfter_output_getElem? {F : Type} [Field F] (gain : F) (n : Nat) (s : State F)
    (i : Nat) (h : i < n) :
    (lowpassAfter gain n s).output_buffer[i]? =
      some (filterState s.alpha s.prev_output s.input_buffer (i + 1) * gain) := by
  rw [lowpassAfter_output_buffer, filled_getElem?_lt _ _ _ _ h]

theorem lowpassAfter_output_full {F : Type} [Field F] (gain : F) (n : Nat) (s : State F)
    (ho : s.output_buffer.length = n) :
    (lowpassAfter gain n s).output_buffer =
      (List.range n).map
        (fun k => filterState s.alpha s.prev_output s.input_buffer (k + 1) * gain) := by
  rw [lowpassAfter_output_buffer, filled_all _ _ _ ho]

theorem lowpassAfter_wellFormed {F : Type} [Field F] (gain : F) (s : State F)
    (h : s.WellFormed) : (lowpassAfter gain SAMPLES s).WellFormed := by
  unfold State.WellFormed at h ⊢
  rw [lowpassAfter_input_buffer, lowpassAfter_output_length _ _ _ (Nat.le_of_eq h.2.symm)]
  exact h

theorem generatedAfter_output_buffer {F : Type} [Field F] (sinf : F → F) (n : Nat)
    (s : State F) : (generatedAfter sinf n s).output_buffer = s.output_buffer := rfl

theorem generatedAfter_input_buffer {F : Type} [Field F] (sinf : F → F) (n : Nat)
    (s : State F) :
    (generatedAfter sinf n s).input_buffer =
      filled (fun i => sinf (2 * PI * (i : F) * 0.05) + 0.5 * sinf (2 * PI * (i : F) * 0.3)) n
        s.input_buffer := rfl

theorem generatedAfter_input_length {F : Type} [Field F] (sinf : F → F) (n : Nat)
    (s : State F) (h : n ≤ s.input_buffer.length) :
    (generatedAfter sinf n s).input_buffer.length = s.input_buffer.length := by
  rw [generatedAfter_input_buffer, filled_length _ _ _ h]

theorem generatedAfter_input_getElem? {F : Type} [Field F] (sinf : F → F) (n : Nat)
    (s : State F) (i : Nat) (h : i < n) :
    (generatedAfter sinf n s).input_buffer[i]? =
      some (sinf (2 * PI * (i : F) * 0.05) + 0.5 * sinf (2 * PI * (i : F) * 0.3)) := by
  rw [generatedAfter_input_buffer, filled_getElem?_lt _ _ _ _ h]

theorem generatedAfter_wellFormed {F : Type} [Field F] (sinf : F → F) (s : State F)
    (h : s.WellFormed) : (generatedAfter sinf SAMPLES s).WellFormed := by
  unfold State.WellFormed at h ⊢
  rw [generatedAfter_output_buffer, generatedAfter_input_length _ _ _ (Nat.le_of_eq h.1.symm)]
  exact h

theorem impulse_length {F : Type} [Field F] : (impulse : List F).length = 1024 := by
  rw [impulse, List.length_cons, List.length_replicate, SAMPLES]

theorem initial_wellFormed {F : Type} [Field F] : (State.initial : State F).WellFormed := by
  unfold State.WellFormed State.initial
  simp only [List.length_replicate, and_self]

theorem impulseState_wellFormed {F : Type} [Field F] :
    (impulseState : State F).WellFormed := by
  unfold State.WellFormed impulseState State.initial
  simp only [List.length_replicate, and_true]
  exact impulse_length

theorem primedState_wellFormed {F : Type} [Field F] : (primedState : State F).WellFormed := by
  unfold State.WellFormed primedState State.initial
  simp only [List.length_replicate, and_self]

theorem usedImpulseState_wellFormed {F : Type} [Field F] :
    (usedImpulseState : State F).WellFormed := by
  unfold State.WellFormed usedImpulseState impulseState
  simp only [List.length_replicate, and_true]
  exact impulse_length

theorem impulseState_alpha {F : Type} [Field F] : (impulseState : State F).alpha = 0.1 := rfl

theorem impulseState_prev_output {F : Type} [Field F] :
    (impulseState : State F).prev_output = 0 := rfl

theorem impulseState_input_buffer {F : Type} [Field F] :
    (impulseState : State F).input_buffer = impulse := rfl

theorem impulse_getD_zero {F : Type} [Field F] : (impulse : List F).getD 0 0 = 1 := by
  simp [impulse]

theorem impulse_getD_succ {F : Type} [Field F] (k : Nat) :
    (impulse : List F).getD (k + 1) 0 = 0 := by
  rw [impulse, List.getD_cons_succ, List.getD_eq_getElem?_getD, List.getElem?_replicate]
  split <;> rfl

/-! ## The filter loop in closed form -/

theorem lowpass_body_eq {F : Type} [Field F] (gain : F) (s : State F) (i : Nat)
    (hi : i < s.input_buffer.length) (ho : i < s.output_buffer.length) :
    lowpass_body gain s i = some { s with
      output_buffer := s.output_buffer.set i
        ((s.alpha * s.input_buffer.getD i 0 + (1 - s.alpha) * s.prev_output) * gain)
      prev_output := s.alpha * s.input_buffer.getD i 0 + (1 - s.alpha) * s.prev_output } := by
  simp [lowpass_body, readAt, writeAt, hi, ho, List.getD_eq_getElem?_getD,
    List.getElem?_eq_getElem]

theorem lowpass_body_none {F : Type} [Field F] (gain : F) (s : State F) (i : Nat)
    (h : s.input_buffer.length ≤ i ∨ s.output_buffer.length ≤ i) :
    lowpass_body gain s i = none := by
  rcases h with h | h
  · simp [lowpass_body, readAt, List.getElem?_eq_none h]
  · cases hx : s.input_buffer[i]? <;>
      simp [lowpass_body, readAt, writeAt, hx, Nat.not_lt.mpr h]

theorem lowpass_loop_eq {F : Type} [Field F] (gain : F) (s : State F) (n : Nat)
    (hi : n ≤ s.input_buffer.length) (ho : n ≤ s.output_buffer.length) :
    lowpass_loop gain n s = some (lowpassAfter gain n s) := by
  induction n with
  | zero =>
    simp [lowpass_loop, forLoop_zero, lowpassAfter, filled_zero, filterState]
  | succ n ih =>
    have ih' := ih (by omega) (by omega)
    unfold lowpass_loop at ih' ⊢
    rw [forLoop_succ, ih', Option.some_bind]
    rw [lowpass_body_eq gain _ n (by simpa [lowpassAfter] using hi)
      (by rw [lowpassAfter_output_length _ _ _ (by omega)]; omega)]
    simp only [lowpassAfter, filterState]
    rw [filled_set _ _ _ (by omega)]

theorem lowpass_pass_eq {F : Type} [Field F] (gain : F) (s : State F)
    (hi : s.input_buffer.length = SAMPLES) (ho : s.output_buffer.length = SAMPLES) :
    lowpass_pass gain s = some (lowpassAfter gain SAMPLES (emit s [Line.applying])) := by
  unfold lowpass_pass
  exact lowpass_loop_eq _ _ _ (by rw [emit_input_buffer, hi]) (by rw [emit_output_buffer, ho])

theorem apply_lowpass_filter_eq {F : Type} [Field F] (s : State F)
    (hi : s.input_buffer.length = SAMPLES) (ho : s.output_buffer.length = SAMPLES) :
    apply_lowpass_filter s = some (lowpassAfter GAIN SAMPLES (emit s [Line.applying])) :=
  lowpass_pass_eq GAIN s hi ho

theorem filterState_succ_eq_raw {F : Type} [Field F] [CharZero F] (input : List F) (i : Nat) :
    filterState 0.1 0 input (i + 1) = raw input i := by
  induction i with
  | zero => simp only [filterState, raw]; norm_num
  | succ i ih => rw [filterState, ih, raw]; norm_num

theorem filterState_impulse {F : Type} [Field F] [CharZero F] (i : Nat) :
    filterState (0.1 : F) 0 impulse (i + 1) = 0.1 * 0.9 ^ i := by
  induction i with
  | zero => rw [filterState, filterState, impulse_getD_zero]; norm_num
  | succ i ih =>
    rw [filterState, ih, impulse_getD_succ, pow_succ]
    norm_num
    ring

/-! ## The filter against its specification -/

/-- C1: from `prev_output = 0` with `alpha = 0.1`, `apply_lowpass_filter` returns, and
the output buffer holds `output[i] = 0.75 * raw[i]` for every `i < 1024`, where `raw`
is the reference recurrence on the pre-gain values. -/
theorem apply_lowpass_filter_spec {F : Type} [Field F] [CharZero F] (s : State F)
    (hi : s.input_buffer.length = 1024) (ho : s.output_buffer.length = 1024)
    (ha : s.alpha = 0.1) (hp : s.prev_output = 0) :
    ∃ t, apply_lowpass_filter s = some t ∧ t.output_buffer.length = 1024 ∧
      ∀ i, i < 1024 → t.output_buffer[i]? = some (0.75 * raw s.input_buffer i) := by
  refine ⟨_, apply_lowpass_filter_eq s hi ho, ?_, ?_⟩
  · rw [lowpassAfter_output_length _ _ _ (by rw [emit_output_buffer, ho, SAMPLES]),
      emit_output_buffer, ho]
  · intro i hlt
    rw [lowpassAfter_output_getElem? _ _ _ _ (by rw [SAMPLES]; exact hlt), emit_alpha,
      emit_prev_output, emit_input_buffer, ha, hp, filterState_succ_eq_raw, GAIN, mul_comm]

theorem apply_lowpass_filter_spec_witness :
    ∃ t, apply_lowpass_filter (impulseState : State ℚ) = some t ∧
      t.output_buffer.length = 1024 ∧
      ∀ i, i < 1024 → t.output_buffer[i]? = some (0.75 * raw (impulse : List ℚ) i) :=
  apply_lowpass_filter_spec impulseState impulseState_wellFormed.1 impulseState_wellFormed.2
    rfl rfl

/-- C2: impulse response.  For the input buffer `[1, 0, 0, …]`, `alpha = 0.1` and
`prev_output = 0`, `apply_lowpass_filter` returns with `output[i] = 0.75 * 0.1 * 0.9 ^ i`
for every `i < 1024`; `output[0] = 0.075`, `output[1] = 0.0675`, and `output[1]` is not
the value `0.9 * 0.075 * 0.75` that feeding back the gain-scaled sample would give. -/
theorem apply_lowpass_filter_impulse {F : Type} [Field F] [CharZero F] (s : State F)
    (hi : s.input_buffer = impulse) (ho : s.output_buffer.length = 1024)
    (ha : s.alpha = 0.1) (hp : s.prev_output = 0) :
    ∃ t, apply_lowpass_filter s = some t ∧
      (∀ i, i < 1024 → t.output_buffer[i]? = some ((0.75 * 0.1 * 0.9 ^ i : F))) ∧
      t.output_buffer[0]? = some (0.075 : F) ∧ t.output_buffer[1]? = some (0.0675 : F) ∧
      t.output_buffer[1]? ≠ some ((0.9 * 0.075 * 0.75 : F)) := by
  have hall : ∀ i, i < 1024 →
      (lowpassAfter GAIN SAMPLES (emit s [Line.applying])).output_buffer[i]? =
        some ((0.75 * 0.1 * 0.9 ^ i : F)) := by
    intro i hlt
    rw [lowpassAfter_output_getElem? _ _ _ _ (by rw [SAMPLES]; exact hlt), emit_alpha,
      emit_prev_output, emit_input_buffer, ha, hp, hi, filterState_impulse, GAIN]
    congr 1
    ring
  refine ⟨_, apply_lowpass_filter_eq s (by rw [hi]; exact impulse_length) ho, hall, ?_, ?_, ?_⟩
  · rw [hall 0 (by norm_num)]; norm_num
  · rw [hall 1 (by norm_num)]; norm_num
  · rw [hall 1 (by norm_num)]; norm_num

theorem apply_lowpass_filter_impulse_witness :
    ∃ t, apply_lowpass_filter (impulseState : State ℚ) = some t ∧
      (∀ i, i < 1024 → t.output_buffer[i]? = some ((0.75 * 0.1 * 0.9 ^ i : ℚ))) ∧
      t.output_buffer[0]? = some (0.075 : ℚ) ∧ t.output_buffer[1]? = some (0.0675 : ℚ) ∧
      t.output_buffer[1]? ≠ some ((0.9 * 0.075 * 0.75 : ℚ)) :=
  apply_lowpass_filter_impulse impulseState rfl impulseState_wellFormed.2 rfl rfl

/-- C3: the post-gain does not enter the feedback path.  For any two gains the filter
loop returns after every number `n ≤ 1024` of iterations with the same `prev_output`,
the full pass ends with the same `prev_output`, and the output buffer of the pass with
gain `g1` is, sample by sample, `g1` times the output buffer of the pass with gain `1`. -/
theorem lowpass_pass_gain {F : Type} [Field F] (s : State F) (g1 g2 : F)
    (hi : s.input_buffer.length = 1024) (ho : s.output_buffer.length = 1024) :
    (∀ n, n ≤ 1024 → ∃ t1 t2, lowpass_loop g1 n s = some t1 ∧ lowpass_loop g2 n s = some t2 ∧
      t1.prev_output = t2.prev_output) ∧
    (∃ t1 t2, lowpass_pass g1 s = some t1 ∧ lowpass_pass g2 s = some t2 ∧
      t1.prev_output = t2.prev_output) ∧
    (∃ u t, lowpass_pass 1 s = some u ∧ lowpass_pass g1 s = some t ∧
      ∀ i, i < 1024 → ∃ y, u.output_buffer[i]? = some y ∧
        t.output_buffer[i]? = some (g1 * y)) := by
  refine ⟨?_, ?_, ?_⟩
  · intro n hn
    exact ⟨_, _, lowpass_loop_eq g1 s n (by omega) (by omega),
      lowpass_loop_eq g2 s n (by omega) (by omega), rfl⟩
  · exact ⟨_, _, lowpass_pass_eq g1 s hi ho, lowpass_pass_eq g2 s hi ho, rfl⟩
  · refine ⟨_, _, lowpass_pass_eq 1 s hi ho, lowpass_pass_eq g1 s hi ho, ?_⟩
    intro i hlt
    have hlt' : i < SAMPLES := by rw [SAMPLES]; exact hlt
    refine ⟨_, lowpassAfter_output_getElem? _ _ _ _ hlt', ?_⟩
    rw [lowpassAfter_output_getElem? _ _ _ _ hlt', mul_one, mul_comm]

theorem lowpass_pass_gain_witness :
    (∀ n, n ≤ 1024 → ∃ t1 t2, lowpass_loop (3 : ℚ) n impulseState = some t1 ∧
      lowpass_loop (5 : ℚ) n impulseState = some t2 ∧ t1.prev_output = t2.prev_output) ∧
    (∃ t1 t2, lowpass_pass (3 : ℚ) impulseState = some t1 ∧
      lowpass_pass (5 : ℚ) impulseState = some t2 ∧ t1.prev_output = t2.prev_output) ∧
    (∃ u t, lowpass_pass (1 : ℚ) impulseState = some u ∧
      lowpass_pass (3 : ℚ) impulseState = some t ∧
      ∀ i, i < 1024 → ∃ y, u.output_buffer[i]? = some y ∧
        t.output_buffer[i]? = some (3 * y)) :=
  lowpass_pass_gain impulseState 3 5 impulseState_wellFormed.1 impulseState_wellFormed.2

/-! ## Determinism of the filter -/

/-- C4, counterexample: the output buffer is not a function of the input buffer alone.
The initial state and the initial state with `prev_output = 1` hold the same (all-zero)
input buffer, yet the filter writes `output[0] = 0` from the first and
`output[0] = 0.675` from the second, so the two output buffers differ. -/
theorem apply_lowpass_filter_not_input_only :
    (State.initial : State ℚ).input_buffer = (primedState : State ℚ).input_buffer ∧
      ∃ t1 t2, apply_lowpass_filter (State.initial : State ℚ) = some t1 ∧
        apply_lowpass_filter (primedState : State ℚ) = some t2 ∧
        t1.output_buffer[0]? = some 0 ∧ t2.output_buffer[0]? = some (0.675 : ℚ) ∧
        t1.output_buffer ≠ t2.output_buffer := by
  have hpos : 0 < SAMPLES := by decide
  have e1 := apply_lowpass_filter_eq (State.initial : State ℚ)
    initial_wellFormed.1 initial_wellFormed.2
  have e2 := apply_lowpass_filter_eq (primedState : State ℚ)
    primedState_wellFormed.1 primedState_wellFormed.2
  have v1 : (lowpassAfter GAIN SAMPLES
      (emit (State.initial : State ℚ) [Line.applying])).output_buffer[0]? = some 0 := by
    rw [lowpassAfter_output_getElem? _ _ _ _ hpos]
    simp only [emit, State.initial, filterState, zeros_getD]
    norm_num
  have v2 : (lowpassAfter GAIN SAMPLES
      (emit (primedState : State ℚ) [Line.applying])).output_buffer[0]? =
      some (0.675 : ℚ) := by
    rw [lowpassAfter_output_getElem? _ _ _ _ hpos]
    simp only [emit, primedState, State.initial, filterState, zeros_getD, GAIN]
    norm_num
  refine ⟨rfl, _, _, e1, e2, v1, v2, ?_⟩
  intro h
  rw [h, v2] at v1
  norm_num at v1

/-- C4, amended: the filter is deterministic given the input buffer and the filter
variables.  Two states with buffers of 1024 samples that hold the same input buffer,
the same `alpha` and the same `prev_output` make `apply_lowpass_filter` return with the
same output buffer, whatever the output buffers held before. -/
theorem apply_lowpass_filter_deterministic {F : Type} [Field F] (s1 s2 : State F)
    (h1 : s1.WellFormed) (h2 : s2.WellFormed)
    (hin : s1.input_buffer = s2.input_buffer) (ha : s1.alpha = s2.alpha)
    (hp : s1.prev_output = s2.prev_output) :
    ∃ t1 t2, apply_lowpass_filter s1 = some t1 ∧ apply_lowpass_filter s2 = some t2 ∧
      t1.output_buffer = t2.output_buffer ∧ t1.prev_output = t2.prev_output := by
  refine ⟨_, _, apply_lowpass_filter_eq s1 h1.1 h1.2, apply_lowpass_filter_eq s2 h2.1 h2.2,
    ?_, ?_⟩
  · rw [lowpassAfter_output_full _ _ _ (by rw [emit_output_buffer]; exact h1.2),
      lowpassAfter_output_full _ _ _ (by rw [emit_output_buffer]; exact h2.2)]
    simp only [emit_alpha, emit_prev_output, emit_input_buffer, hin, ha, hp]
  · simp only [lowpassAfter_prev_output, emit_alpha, emit_prev_output, emit_input_buffer,
      hin, ha, hp]

theorem apply_lowpass_filter_deterministic_witness :
    ∃ t1 t2, apply_lowpass_filter (impulseState : State ℚ) = some t1 ∧
      apply_lowpass_filter (usedImpulseState : State ℚ) = some t2 ∧
      t1.output_buffer = t2.output_buffer ∧ t1.prev_output = t2.prev_output :=
  apply_lowpass_filter_deterministic impulseState usedImpulseState
    impulseState_wellFormed usedImpulseState_wellFormed rfl rfl rfl

/-! ## The generator -/

theorem generate_body_eq {F : Type} [Field F] (sinf : F → F) (s : State F) (i : Nat)
    (hi : i < s.input_buffer.length) :
    generate_body sinf s i = some { s with
      input_buffer := s.input_buffer.set i
        (sinf (2 * PI * (i : F) * 0.05) + 0.5 * sinf (2 * PI * (i : F) * 0.3)) } := by
  simp [generate_body, writeAt, hi]

theorem generate_loop_eq {F : Type} [Field F] (sinf : F → F) (s : State F) (n : Nat)
    (hi : n ≤ s.input_buffer.length) :
    forLoop n (generate_body sinf) s = some (generatedAfter sinf n s) := by
  induction n with
  | zero => simp [forLoop_zero, generatedAfter, filled_zero]
  | succ n ih =>
    rw [forLoop_succ, ih (by omega), Option.some_bind]
    rw [generate_body_eq sinf _ n
      (by rw [generatedAfter_input_length _ _ _ (by omega)]; omega)]
    simp only [generatedAfter]
    rw [filled_set _ _ _ (by omega)]

theorem generate_test_signal_eq {F : Type} [Field F] (sinf : F → F) (s : State F)
    (hi : s.input_buffer.length = SAMPLES) :
    generate_test_signal sinf s =
      some (generatedAfter sinf SAMPLES (emit s [Line.generating])) := by
  unfold generate_test_signal
  exact generate_loop_eq sinf _ _ (by rw [emit_input_buffer, hi])

/-- C5: `generate_test_signal` returns and fills the input buffer with
`input[i] = sinf (2 * PI * i * 0.05) + 0.5 * sinf (2 * PI * i * 0.3)` for every
`i < 1024`, whatever the buffer held before; with `sinf 0 = 0`, `input[0] = 0`. -/
theorem generate_test_signal_spec {F : Type} [Field F] (sinf : F → F) (s : State F)
    (hi : s.input_buffer.length = 1024) (hsin : sinf 0 = 0) :
    ∃ t, generate_test_signal sinf s = some t ∧ t.input_buffer.length = 1024 ∧
      (∀ i : Nat, i < 1024 → t.input_buffer[i]? =
        some (sinf (2 * PI * (i : F) * 0.05) + 0.5 * sinf (2 * PI * (i : F) * 0.3))) ∧
      t.input_buffer[0]? = some 0 := by
  have hall : ∀ i : Nat, i < 1024 →
      (generatedAfter sinf SAMPLES (emit s [Line.generating])).input_buffer[i]? =
        some (sinf (2 * PI * (i : F) * 0.05) + 0.5 * sinf (2 * PI * (i : F) * 0.3)) :=
    fun i hlt => generatedAfter_input_getElem? _ _ _ _ (by rw [SAMPLES]; exact hlt)
  refine ⟨_, generate_test_signal_eq sinf s hi, ?_, hall, ?_⟩
  · rw [generatedAfter_input_length _ _ _ (by rw [emit_input_buffer, hi, SAMPLES]),
      emit_input_buffer, hi]
  · rw [hall 0 (by norm_num)]
    simp [hsin]

theorem generate_test_signal_spec_witness :
    ∃ t, generate_test_signal Real.sin (impulseState : State ℝ) = some t ∧
      t.input_buffer.length = 1024 ∧
      (∀ i : Nat, i < 1024 → t.input_buffer[i]? =
        some (Real.sin (2 * PI * (i : ℝ) * 0.05) + 0.5 * Real.sin (2 * PI * (i : ℝ) * 0.3))) ∧
      t.input_buffer[0]? = some 0 :=
  generate_test_signal_spec Real.sin impulseState impulseState_wellFormed.1 Real.sin_zero

/-! ## The analyzer -/

theorem analyze_body_eq {F : Type} [Field F] (s : State F) (acc : F × F) (i : Nat)
    (hi : i < s.input_buffer.length) (ho : i < s.output_buffer.length) :
    analyze_body s acc i =
      some (acc.1 + s.input_buffer.getD i 0 ^ 2, acc.2 + s.output_buffer.getD i 0 ^ 2) := by
  simp [analyze_body, readAt, hi, ho, List.getD_eq_getElem?_getD, List.getElem?_eq_getElem,
    pow_two]

theorem analyze_loop_eq {F : Type} [Field F] (s : State F) (n : Nat)
    (hi : n ≤ s.input_buffer.length) (ho : n ≤ s.output_buffer.length) :
    forLoop n (analyze_body s) (0, 0) =
      some (∑ i ∈ Finset.range n, s.input_buffer.getD i 0 ^ 2,
        ∑ i ∈ Finset.range n, s.output_buffer.getD i 0 ^ 2) := by
  induction n with
  | zero => simp [forLoop_zero]
  | succ n ih =>
    rw [forLoop_succ, ih (by omega) (by omega), Option.some_bind,
      analyze_body_eq s _ n (by omega) (by omega), Finset.sum_range_succ, Finset.sum_range_succ]

theorem analyze_sums_eq {F : Type} [Field F] (s : State F) (h : s.WellFormed) :
    analyze_sums s = some (sumSquares s.input_buffer, sumSquares s.output_buffer) := by
  unfold analyze_sums
  rw [analyze_loop_eq s SAMPLES (Nat.le_of_eq h.1.symm) (Nat.le_of_eq h.2.symm)]
  rfl

theorem analyze_signal_eq {F : Type} [Field F] [DecidableEq F] (sqrtf : F → F) (s : State F)
    (h : s.WellFormed) :
    analyze_signal sqrtf s = some (emit s
      [Line.analysisHeader, Line.inputRms (rms sqrtf s.input_buffer),
       Line.outputRms (rms sqrtf s.output_buffer),
       Line.gain (fdiv (rms sqrtf s.output_buffer) (rms sqrtf s.input_buffer))]) := by
  unfold analyze_signal
  rw [analyze_sums_eq s h]
  simp [rms, SAMPLES]

theorem sumSquares_nonneg {F : Type} [LinearOrderedField F] (buf : List F) :
    0 ≤ sumSquares buf :=
  Finset.sum_nonneg (fun i _ => sq_nonneg (buf.getD i 0))

theorem sumSquares_pos_of_sample {F : Type} [LinearOrderedField F] (buf : List F) (i : Nat)
    (hi : i < 1024) (x : F) (hx : buf[i]? = some x) (hpos : 0 < x) : 0 < sumSquares buf := by
  refine Finset.sum_pos' (fun j _ => sq_nonneg (buf.getD j 0)) ⟨i, Finset.mem_range.mpr hi, ?_⟩
  rw [List.getD_eq_getElem?_getD, hx]
  exact pow_pos hpos 2

/-- C6: on buffers of 1024 samples `analyze_signal` returns, and the lines it prints
carry `input_rms = sqrt ((Σ input[i]²) / 1024)`, `output_rms = sqrt ((Σ output[i]²) / 1024)`
and the quotient `output_rms / input_rms` (a number whenever `input_rms ≠ 0`); the
accumulating loop computes exactly the two reference sums. -/
theorem analyze_signal_spec {F : Type} [Field F] [DecidableEq F] (sqrtf : F → F) (s : State F)
    (h : s.WellFormed) :
    analyze_sums s = some (sumSquares s.input_buffer, sumSquares s.output_buffer) ∧
    (∃ g, analyze_signal sqrtf s = some (emit s
        [Line.analysisHeader, Line.inputRms (rms sqrtf s.input_buffer),
         Line.outputRms (rms sqrtf s.output_buffer), Line.gain g]) ∧
      (rms sqrtf s.input_buffer ≠ 0 →
        g = some (rms sqrtf s.output_buffer / rms sqrtf s.input_buffer))) := by
  refine ⟨analyze_sums_eq s h, _, analyze_signal_eq sqrtf s h, ?_⟩
  intro hne
  simp [fdiv, hne]

theorem analyze_signal_spec_witness :
    analyze_sums (impulseState : State ℝ) =
      some (sumSquares (impulseState : State ℝ).input_buffer,
        sumSquares (impulseState : State ℝ).output_buffer) ∧
    (∃ g, analyze_signal Real.sqrt (impulseState : State ℝ) = some (emit impulseState
        [Line.analysisHeader, Line.inputRms (rms Real.sqrt (impulseState : State ℝ).input_buffer),
         Line.outputRms (rms Real.sqrt (impulseState : State ℝ).output_buffer), Line.gain g]) ∧
      (rms Real.sqrt (impulseState : State ℝ).input_buffer ≠ 0 →
        g = some (rms Real.sqrt (impulseState : State ℝ).output_buffer /
          rms Real.sqrt (impulseState : State ℝ).input_buffer))) :=
  analyze_signal_spec Real.sqrt impulseState impulseState_wellFormed

/-- RMS non-negativity in exact arithmetic (a field has no NaN).  On buffers of 1024
numbers the two sums of squares accumulated by `analyze_signal` are `≥ 0`, and, the
square root of a number `≥ 0` being `≥ 0`, the `input_rms` and `output_rms` it prints
are `≥ 0`. -/
theorem analyze_signal_rms_nonneg {F : Type} [LinearOrderedField F] (sqrtf : F → F)
    (s : State F) (h : s.WellFormed) (hsqrt : ∀ x, 0 ≤ x → 0 ≤ sqrtf x) :
    ∃ a b g, analyze_sums s = some (a, b) ∧ 0 ≤ a ∧ 0 ≤ b ∧
      analyze_signal sqrtf s = some (emit s
        [Line.analysisHeader, Line.inputRms (sqrtf (a / 1024)),
         Line.outputRms (sqrtf (b / 1024)), Line.gain g]) ∧
      0 ≤ sqrtf (a / 1024) ∧ 0 ≤ sqrtf (b / 1024) := by
  have ha := sumSquares_nonneg s.input_buffer
  have hb := sumSquares_nonneg s.output_buffer
  exact ⟨_, _, _, analyze_sums_eq s h, ha, hb, analyze_signal_eq sqrtf s h,
    hsqrt _ (div_nonneg ha (by norm_num)), hsqrt _ (div_nonneg hb (by norm_num))⟩

theorem analyze_signal_rms_nonneg_witness :
    ∃ a b g, analyze_sums (impulseState : State ℝ) = some (a, b) ∧ 0 ≤ a ∧ 0 ≤ b ∧
      analyze_signal Real.sqrt (impulseState : State ℝ) = some (emit impulseState
        [Line.analysisHeader, Line.inputRms (Real.sqrt (a / 1024)),
         Line.outputRms (Real.sqrt (b / 1024)), Line.gain g]) ∧
      0 ≤ Real.sqrt (a / 1024) ∧ 0 ≤ Real.sqrt (b / 1024) :=
  analyze_signal_rms_nonneg Real.sqrt impulseState impulseState_wellFormed
    (fun x _ => Real.sqrt_nonneg x)

/-! ## The analyzer on buffers that may hold NaN -/

theorem Fl.num_add_num {F : Type} [Add F] (x y : F) :
    (Fl.num x + Fl.num y : Fl F) = Fl.num (x + y) := rfl

theorem Fl.num_mul_num {F : Type} [Mul F] (x y : F) :
    (Fl.num x * Fl.num y : Fl F) = Fl.num (x * y) := rfl

theorem Fl.num_div_num {F : Type} [Div F] (x y : F) :
    (Fl.num x / Fl.num y : Fl F) = Fl.num (x / y) := rfl

theorem Fl.nan_add {F : Type} [Add F] (v : Fl F) : (Fl.nan + v : Fl F) = Fl.nan := rfl

theorem Fl.add_nan {F : Type} [Add F] (v : Fl F) : (v + Fl.nan : Fl F) = Fl.nan := by
  cases v <;> rfl

theorem Fl.nan_mul {F : Type} [Mul F] (v : Fl F) : (Fl.nan * v : Fl F) = Fl.nan := rfl

theorem Fl.nan_div {F : Type} [Div F] (v : Fl F) : (Fl.nan / v : Fl F) = Fl.nan := rfl

theorem Fl.div_nan {F : Type} [Div F] (v : Fl F) : (v / Fl.nan : Fl F) = Fl.nan := by
  cases v <;> rfl

theorem Fl.zero_eq {F : Type} [Zero F] : (0 : Fl F) = Fl.num 0 := rfl

theorem Fl.natCast_eq {F : Type} [NatCast F] (n : Nat) : ((n : Nat) : Fl F) = Fl.num (n : F) :=
  rfl

theorem Fl.num_le_num {F : Type} [LE F] (x y : F) : (Fl.num x ≤ Fl.num y) ↔ x ≤ y := Iff.rfl

theorem Fl.not_le_nan {F : Type} [LE F] (v : Fl F) : ¬ (v ≤ Fl.nan) := by
  cases v <;> exact fun h => h

theorem analyze_body_of_reads {F : Type} [Add F] [Mul F] (s : State F) (acc : F × F) (i : Nat)
    (x y : F) (hx : s.input_buffer[i]? = some x) (hy : s.output_buffer[i]? = some y) :
    analyze_body s acc i = some (acc.1 + x * x, acc.2 + y * y) := by
  simp [analyze_body, readAt, hx, hy]

theorem sampleState_input_zero {F : Type} [Field F] (first : Fl F) :
    (sampleState first).input_buffer[0]? = some first := rfl

theorem sampleState_input_succ {F : Type} [Field F] (first : Fl F) (k : Nat)
    (h : k + 1 < SAMPLES) : (sampleState first).input_buffer[k + 1]? = some (Fl.num 0) := by
  rw [sampleState, List.getElem?_cons_succ, List.getElem?_replicate, if_pos (by omega)]

theorem sampleState_output {F : Type} [Field F] (first : Fl F) (k : Nat) (h : k < SAMPLES) :
    (sampleState first).output_buffer[k]? = some (Fl.num 0) := by
  rw [sampleState, List.getElem?_replicate, if_pos h]

theorem analyze_loop_nan {F : Type} [Field F] (n : Nat) (h : n < SAMPLES) :
    forLoop (n + 1) (analyze_body (sampleState (Fl.nan : Fl F))) (0, 0) =
      some (Fl.nan, Fl.num 0) := by
  induction n with
  | zero =>
    rw [forLoop_succ, forLoop_zero, Option.some_bind,
      analyze_body_of_reads _ _ 0 _ _ (sampleState_input_zero _) (sampleState_output _ 0 h)]
    simp only [Fl.zero_eq, Fl.nan_mul, Fl.add_nan, Fl.num_mul_num, Fl.num_add_num, mul_zero,
      add_zero]
  | succ n ih =>
    rw [forLoop_succ, ih (by omega), Option.some_bind,
      analyze_body_of_reads _ _ (n + 1) _ _ (sampleState_input_succ _ n h)
        (sampleState_output _ (n + 1) h)]
    simp only [Fl.nan_add, Fl.num_mul_num, Fl.num_add_num, mul_zero, add_zero]

/-- C7, counterexample: a NaN sample makes `input_rms` NaN, which is not `≥ 0`.  On the
input buffer `[NaN, 0, 0, …]` with an all-zero output buffer, `analyze_signal` prints
`input_rms = NaN`, `output_rms = 0` and the gain `0 / NaN = NaN`, and `0 ≤ NaN` is false. -/
theorem analyze_signal_nan_sample :
    (sampleState (Fl.nan : Fl ℝ)).WellFormed ∧
    analyze_signal (Fl.lift Real.sqrt) (sampleState (Fl.nan : Fl ℝ)) =
      some (emit (sampleState Fl.nan)
        [Line.analysisHeader, Line.inputRms Fl.nan, Line.outputRms (Fl.num 0),
         Line.gain (some Fl.nan)]) ∧
    ¬ ((0 : Fl ℝ) ≤ Fl.nan) := by
  refine ⟨?_, ?_, Fl.not_le_nan _⟩
  · unfold State.WellFormed sampleState
    simp only [List.length_cons, List.length_replicate, and_true]
    rfl
  · unfold analyze_signal analyze_sums
    rw [show SAMPLES = 1023 + 1 from rfl, analyze_loop_nan 1023 (by decide)]
    simp only [Option.bind_eq_bind, Option.some_bind, Option.pure_def, Fl.nan_div,
      Fl.natCast_eq, Fl.num_div_num, Fl.lift, zero_div, Real.sqrt_zero]
    rw [fdiv, if_neg (fun e => Fl.noConfusion e), Fl.div_nan]


theorem analyze_loop_numbers {F : Type} [LinearOrderedField F] (s : State (Fl F))
    (hin : ∀ i, i < 1024 → ∃ x, s.input_buffer[i]? = some (Fl.num x))
    (hout : ∀ i, i < 1024 → ∃ y, s.output_buffer[i]? = some (Fl.num y)) (n : Nat)
    (hn : n ≤ 1024) :
    ∃ a b, forLoop n (analyze_body s) (0, 0) = some (Fl.num a, Fl.num b) ∧ 0 ≤ a ∧ 0 ≤ b := by
  induction n with
  | zero => exact ⟨0, 0, forLoop_zero _ _, le_refl 0, le_refl 0⟩
  | succ n ih =>
    obtain ⟨a, b, hloop, ha, hb⟩ := ih (by omega)
    obtain ⟨x, hx⟩ := hin n (by omega)
    obtain ⟨y, hy⟩ := hout n (by omega)
    refine ⟨a + x * x, b + y * y, ?_, add_nonneg ha (mul_self_nonneg x),
      add_nonneg hb (mul_self_nonneg y)⟩
    rw [forLoop_succ, hloop, Option.some_bind, analyze_body_of_reads _ _ n _ _ hx hy]
    rfl

/-- C7, amended: RMS non-negativity on buffers without NaN.  When every sample of the
input and output buffers is a number, the two sums of squares accumulated by
`analyze_signal` are numbers `≥ 0`, and, the square root of a number `≥ 0` being a number
`≥ 0`, the `input_rms` and `output_rms` it prints are numbers `≥ 0`. -/
theorem analyze_signal_rms_nonneg_of_numbers {F : Type} [LinearOrderedField F]
    (sqrtf : F → F) (s : State (Fl F))
    (hin : ∀ i, i < 1024 → ∃ x, s.input_buffer[i]? = some (Fl.num x))
    (hout : ∀ i, i < 1024 → ∃ y, s.output_buffer[i]? = some (Fl.num y))
    (hsqrt : ∀ x, 0 ≤ x → 0 ≤ sqrtf x) :
    ∃ a b g, analyze_sums s = some (Fl.num a, Fl.num b) ∧ 0 ≤ a ∧ 0 ≤ b ∧
      analyze_signal (Fl.lift sqrtf) s = some (emit s
        [Line.analysisHeader, Line.inputRms (Fl.num (sqrtf (a / 1024))),
         Line.outputRms (Fl.num (sqrtf (b / 1024))), Line.gain g]) ∧
      (0 : Fl F) ≤ Fl.num (sqrtf (a / 1024)) ∧ (0 : Fl F) ≤ Fl.num (sqrtf (b / 1024)) := by
  obtain ⟨a, b, hloop, ha, hb⟩ := analyze_loop_numbers s hin hout 1024 (le_refl _)
  have hsums : analyze_sums s = some (Fl.num a, Fl.num b) := hloop
  have hcast : ((SAMPLES : Nat) : F) = 1024 := by rw [SAMPLES]; norm_num
  refine ⟨a, b, fdiv (Fl.num (sqrtf (b / 1024))) (Fl.num (sqrtf (a / 1024))), hsums, ha, hb,
    ?_, ?_, ?_⟩
  · unfold analyze_signal
    rw [hsums]
    simp only [Option.bind_eq_bind, Option.some_bind, Option.pure_def, Fl.natCast_eq,
      Fl.num_div_num, Fl.lift, hcast]
  · exact (Fl.num_le_num _ _).mpr (hsqrt _ (div_nonneg ha (by norm_num)))
  · exact (Fl.num_le_num _ _).mpr (hsqrt _ (div_nonneg hb (by norm_num)))

theorem sampleState_numbers {F : Type} [Field F] (x : F) :
    (∀ i, i < 1024 → ∃ v, (sampleState (Fl.num x)).input_buffer[i]? = some (Fl.num v)) ∧
    (∀ i, i < 1024 → ∃ v, (sampleState (Fl.num x)).output_buffer[i]? = some (Fl.num v)) := by
  constructor
  · intro i hi
    cases i with
    | zero => exact ⟨x, sampleState_input_zero _⟩
    | succ k => exact ⟨0, sampleState_input_succ _ k hi⟩
  · intro i hi
    exact ⟨0, sampleState_output _ i hi⟩

theorem analyze_signal_rms_nonneg_of_numbers_witness :
    ∃ a b g, analyze_sums (sampleState (Fl.num (1 : ℝ))) = some (Fl.num a, Fl.num b) ∧
      0 ≤ a ∧ 0 ≤ b ∧
      analyze_signal (Fl.lift Real.sqrt) (sampleState (Fl.num (1 : ℝ))) =
        some (emit (sampleState (Fl.num (1 : ℝ)))
          [Line.analysisHeader, Line.inputRms (Fl.num (Real.sqrt (a / 1024))),
           Line.outputRms (Fl.num (Real.sqrt (b / 1024))), Line.gain g]) ∧
      (0 : Fl ℝ) ≤ Fl.num (Real.sqrt (a / 1024)) ∧
      (0 : Fl ℝ) ≤ Fl.num (Real.sqrt (b / 1024)) :=
  analyze_signal_rms_nonneg_of_numbers Real.sqrt (sampleState (Fl.num 1))
    (sampleState_numbers 1).1 (sampleState_numbers 1).2 (fun x _ => Real.sqrt_nonneg x)


/-! ## The program's own signal -/

theorem generated_sample_one_pos :
    0 < Real.sin (2 * PI * ((1 : Nat) : ℝ) * 0.05) +
      0.5 * Real.sin (2 * PI * ((1 : Nat) : ℝ) * 0.3) := by
  have hpi := Real.pi_gt_three
  have h1 : 0 < Real.sin (2 * PI * ((1 : Nat) : ℝ) * 0.05) :=
    Real.sin_pos_of_pos_of_lt_pi (by simp only [PI]; norm_num)
      (by simp only [PI]; norm_num; linarith)
  have h2 : 0 < Real.sin (2 * PI * ((1 : Nat) : ℝ) * 0.3) :=
    Real.sin_pos_of_pos_of_lt_pi (by simp only [PI]; norm_num)
      (by simp only [PI]; norm_num; linarith)
  linarith

/-- C8: on the program's own run the division in `analyze_signal` is not a division by
zero.  After `generate_test_signal` (with the real sine) and `apply_lowpass_filter`, the
sample `input[1] = sin (2 * PI * 1 * 0.05) + 0.5 * sin (2 * PI * 1 * 0.3)` is `> 0`, the
sum of squares of the input samples is `> 0`, `input_rms > 0`, and `analyze_signal`
prints the quotient `output_rms / input_rms`. -/
theorem analyze_signal_division_defined (s : State ℝ) (h : s.WellFormed) :
    ∃ t u, generate_test_signal Real.sin s = some t ∧ apply_lowpass_filter t = some u ∧
      u.input_buffer = t.input_buffer ∧
      (∃ x, u.input_buffer[1]? = some x ∧ 0 < x) ∧
      0 < sumSquares u.input_buffer ∧ 0 < rms Real.sqrt u.input_buffer ∧
      analyze_signal Real.sqrt u = some (emit u
        [Line.analysisHeader, Line.inputRms (rms Real.sqrt u.input_buffer),
         Line.outputRms (rms Real.sqrt u.output_buffer),
         Line.gain (some (rms Real.sqrt u.output_buffer / rms Real.sqrt u.input_buffer))]) := by
  have ht := generatedAfter_wellFormed Real.sin _ (emit_wellFormed s [Line.generating] h)
  have hu := lowpassAfter_wellFormed (GAIN : ℝ) _ (emit_wellFormed _ [Line.applying] ht)
  have hx : (lowpassAfter (GAIN : ℝ) SAMPLES (emit (generatedAfter Real.sin SAMPLES
      (emit s [Line.generating])) [Line.applying])).input_buffer[1]? =
      some (Real.sin (2 * PI * ((1 : Nat) : ℝ) * 0.05) +
        0.5 * Real.sin (2 * PI * ((1 : Nat) : ℝ) * 0.3)) := by
    rw [lowpassAfter_input_buffer, emit_input_buffer]
    exact generatedAfter_input_getElem? _ _ _ _ (by decide)
  have hsum := sumSquares_pos_of_sample _ 1 (by norm_num) _ hx generated_sample_one_pos
  have hrms : 0 < rms Real.sqrt (lowpassAfter (GAIN : ℝ) SAMPLES (emit (generatedAfter
      Real.sin SAMPLES (emit s [Line.generating])) [Line.applying])).input_buffer :=
    Real.sqrt_pos.mpr (div_pos hsum (by norm_num))
  refine ⟨_, _, generate_test_signal_eq Real.sin s h.1,
    apply_lowpass_filter_eq _ ht.1 ht.2, lowpassAfter_input_buffer _ _ _,
    ⟨_, hx, generated_sample_one_pos⟩, hsum, hrms, ?_⟩
  rw [analyze_signal_eq Real.sqrt _ hu, fdiv, if_neg (ne_of_gt hrms)]

theorem analyze_signal_division_defined_witness :
    ∃ t u, generate_test_signal Real.sin (State.initial : State ℝ) = some t ∧
      apply_lowpass_filter t = some u ∧
      u.input_buffer = t.input_buffer ∧
      (∃ x, u.input_buffer[1]? = some x ∧ 0 < x) ∧
      0 < sumSquares u.input_buffer ∧ 0 < rms Real.sqrt u.input_buffer ∧
      analyze_signal Real.sqrt u = some (emit u
        [Line.analysisHeader, Line.inputRms (rms Real.sqrt u.input_buffer),
         Line.outputRms (rms Real.sqrt u.output_buffer),
         Line.gain (some (rms Real.sqrt u.output_buffer / rms Real.sqrt u.input_buffer))]) :=
  analyze_signal_division_defined State.initial initial_wellFormed

/-! ## The driver: index bounds and frame conditions -/

theorem readAt_isSome {F : Type} (buf : List F) (i : Nat) (h : i < buf.length) :
    (readAt buf i).isSome = true := by
  rw [readAt, List.getElem?_eq_getElem h]
  rfl

theorem readAt_none {F : Type} (buf : List F) (i : Nat) (h : buf.length ≤ i) :
    readAt buf i = none := by
  rw [readAt, List.getElem?_eq_none h]

theorem print_sample_eq {F : Type} (i : Nat) (s : State F) (d : F)
    (hi : i < s.input_buffer.length) (ho : i < s.output_buffer.length) :
    print_sample i s =
      some (emit s [Line.sample i (s.input_buffer.getD i d) (s.output_buffer.getD i d)]) := by
  simp [print_sample, readAt, hi, ho, List.getD_eq_getElem?_getD, List.getElem?_eq_getElem]

theorem generate_test_signal_wellFormed {F : Type} [Field F] (sinf : F → F) (s : State F)
    (h : s.WellFormed) : ∃ t, generate_test_signal sinf s = some t ∧ t.WellFormed :=
  ⟨_, generate_test_signal_eq sinf s h.1,
    generatedAfter_wellFormed sinf _ (emit_wellFormed s _ h)⟩

theorem apply_lowpass_filter_wellFormed {F : Type} [Field F] (s : State F)
    (h : s.WellFormed) : ∃ t, apply_lowpass_filter s = some t ∧ t.WellFormed :=
  ⟨_, apply_lowpass_filter_eq s h.1 h.2, lowpassAfter_wellFormed _ _ (emit_wellFormed s _ h)⟩

theorem analyze_signal_wellFormed {F : Type} [Field F] [DecidableEq F] (sqrtf : F → F)
    (s : State F) (h : s.WellFormed) : ∃ t, analyze_signal sqrtf s = some t ∧ t.WellFormed :=
  ⟨_, analyze_signal_eq sqrtf s h, emit_wellFormed s _ h⟩

theorem print_sample_wellFormed {F : Type} [Field F] (i : Nat) (s : State F)
    (h : s.WellFormed) (hi : i < SAMPLES) : ∃ t, print_sample i s = some t ∧ t.WellFormed :=
  ⟨_, print_sample_eq i s 0 (by rw [h.1]; exact hi) (by rw [h.2]; exact hi),
    emit_wellFormed s _ h⟩

theorem main_wellFormed {F : Type} [Field F] [DecidableEq F] (sinf sqrtf : F → F)
    (s : State F) (h : s.WellFormed) :
    ∃ r, main sinf sqrtf s = some (r, 0) ∧ r.WellFormed := by
  obtain ⟨t1, e1, w1⟩ := generate_test_signal_wellFormed sinf _
    (emit_wellFormed s [Line.banner, Line.rule] h)
  obtain ⟨t2, e2, w2⟩ := apply_lowpass_filter_wellFormed t1 w1
  obtain ⟨t3, e3, w3⟩ := analyze_signal_wellFormed sqrtf t2 w2
  obtain ⟨t4, e4, w4⟩ := print_sample_wellFormed 0 _
    (emit_wellFormed t3 [Line.sampleHeader] w3) (by decide)
  obtain ⟨t5, e5, w5⟩ := print_sample_wellFormed 100 t4 w4 (by decide)
  obtain ⟨t6, e6, w6⟩ := print_sample_wellFormed 500 t5 w5 (by decide)
  refine ⟨emit t6 [Line.completed], ?_, emit_wellFormed t6 _ w6⟩
  simp only [main, e1, e2, e3, e4, e5, e6, Option.bind_eq_bind, Option.some_bind,
    Option.pure_def]

/-- C9: index bounds.  From buffers of 1024 samples, `generate_test_signal` followed by
`apply_lowpass_filter` returns with both buffers still of 1024 samples; every index below
1024 of either buffer can be read, index 1023 in particular, and index 1024 cannot;
`analyze_signal`, the three sample lines of the driver (indices 0, 100, 500) and the whole
of `main` return, every stage leaving both buffers of length 1024. -/
theorem pipeline_index_bounds {F : Type} [Field F] [DecidableEq F] (sinf sqrtf : F → F)
    (s : State F) (hi : s.input_buffer.length = 1024) (ho : s.output_buffer.length = 1024) :
    ∃ t u w r, generate_test_signal sinf s = some t ∧ apply_lowpass_filter t = some u ∧
      analyze_signal sqrtf u = some w ∧ main sinf sqrtf s = some (r, 0) ∧
      (t.input_buffer.length = 1024 ∧ t.output_buffer.length = 1024) ∧
      (u.input_buffer.length = 1024 ∧ u.output_buffer.length = 1024) ∧
      (w.input_buffer.length = 1024 ∧ w.output_buffer.length = 1024) ∧
      (r.input_buffer.length = 1024 ∧ r.output_buffer.length = 1024) ∧
      (∀ i, i < 1024 →
        (readAt u.input_buffer i).isSome = true ∧ (readAt u.output_buffer i).isSome = true) ∧
      (readAt u.input_buffer 1023).isSome = true ∧
      (readAt u.output_buffer 1023).isSome = true ∧
      readAt u.input_buffer 1024 = none ∧ readAt u.output_buffer 1024 = none ∧
      (print_sample 0 w).isSome = true ∧ (print_sample 100 w).isSome = true ∧
      (print_sample 500 w).isSome = true := by
  have h : s.WellFormed := ⟨hi, ho⟩
  obtain ⟨t, e1, w1⟩ := generate_test_signal_wellFormed sinf s h
  obtain ⟨u, e2, w2⟩ := apply_lowpass_filter_wellFormed t w1
  obtain ⟨w, e3, w3⟩ := analyze_signal_wellFormed sqrtf u w2
  obtain ⟨r, e4, w4⟩ := main_wellFormed sinf sqrtf s h
  obtain ⟨p0, e5, _⟩ := print_sample_wellFormed 0 w w3 (by decide)
  obtain ⟨p1, e6, _⟩ := print_sample_wellFormed 100 w w3 (by decide)
  obtain ⟨p2, e7, _⟩ := print_sample_wellFormed 500 w w3 (by decide)
  refine ⟨t, u, w, r, e1, e2, e3, e4, w1, w2, w3, w4, ?_, ?_, ?_, ?_, ?_, ?_, ?_, ?_⟩
  · intro i hlt
    exact ⟨readAt_isSome _ _ (by rw [w2.1]; exact hlt), readAt_isSome _ _ (by rw [w2.2]; exact hlt)⟩
  · exact readAt_isSome _ _ (by rw [w2.1]; decide)
  · exact readAt_isSome _ _ (by rw [w2.2]; decide)
  · exact readAt_none _ _ (by rw [w2.1]; decide)
  · exact readAt_none _ _ (by rw [w2.2]; decide)
  · rw [e5]; rfl
  · rw [e6]; rfl
  · rw [e7]; rfl

theorem pipeline_index_bounds_witness :
    ∃ t u w r, generate_test_signal Real.sin (State.initial : State ℝ) = some t ∧
      apply_lowpass_filter t = some u ∧
      analyze_signal Real.sqrt u = some w ∧
      main Real.sin Real.sqrt (State.initial : State ℝ) = some (r, 0) ∧
      (t.input_buffer.length = 1024 ∧ t.output_buffer.length = 1024) ∧
      (u.input_buffer.length = 1024 ∧ u.output_buffer.length = 1024) ∧
      (w.input_buffer.length = 1024 ∧ w.output_buffer.length = 1024) ∧
      (r.input_buffer.length = 1024 ∧ r.output_buffer.length = 1024) ∧
      (∀ i, i < 1024 →
        (readAt u.input_buffer i).isSome = true ∧ (readAt u.output_buffer i).isSome = true) ∧
      (readAt u.input_buffer 1023).isSome = true ∧
      (readAt u.output_buffer 1023).isSome = true ∧
      readAt u.input_buffer 1024 = none ∧ readAt u.output_buffer 1024 = none ∧
      (print_sample 0 w).isSome = true ∧ (print_sample 100 w).isSome = true ∧
      (print_sample 500 w).isSome = true :=
  pipeline_index_bounds Real.sin Real.sqrt State.initial initial_wellFormed.1
    initial_wellFormed.2

/-- C10: buffers are read-only after their producing stage.  On buffers of 1024 samples
the filter loop returns after every number `n ≤ 1024` of iterations, and
`apply_lowpass_filter` returns, with the input buffer (and `alpha`) unchanged;
`analyze_signal` returns with the input buffer, the output buffer, `prev_output` and
`alpha` unchanged. -/
theorem buffers_read_only {F : Type} [Field F] [DecidableEq F] (sqrtf : F → F) (s : State F)
    (h : s.WellFormed) :
    (∀ n, n ≤ 1024 → ∃ t, lowpass_loop GAIN n s = some t ∧ t.input_buffer = s.input_buffer) ∧
    (∃ t, apply_lowpass_filter s = some t ∧ t.input_buffer = s.input_buffer ∧
      t.alpha = s.alpha) ∧
    (∃ w, analyze_signal sqrtf s = some w ∧ w.input_buffer = s.input_buffer ∧
      w.output_buffer = s.output_buffer ∧ w.prev_output = s.prev_output ∧
      w.alpha = s.alpha) := by
  refine ⟨?_, ?_, ?_⟩
  · intro n hn
    exact ⟨_, lowpass_loop_eq GAIN s n (by rw [h.1]; exact hn) (by rw [h.2]; exact hn),
      lowpassAfter_input_buffer _ _ _⟩
  · exact ⟨_, apply_lowpass_filter_eq s h.1 h.2, lowpassAfter_input_buffer _ _ _,
      lowpassAfter_alpha _ _ _⟩
  · exact ⟨_, analyze_signal_eq sqrtf s h, rfl, rfl, rfl, rfl⟩

theorem buffers_read_only_witness :
    (∀ n, n ≤ 1024 → ∃ t, lowpass_loop GAIN n (impulseState : State ℝ) = some t ∧
      t.input_buffer = (impulseState : State ℝ).input_buffer) ∧
    (∃ t, apply_lowpass_filter (impulseState : State ℝ) = some t ∧
      t.input_buffer = (impulseState : State ℝ).input_buffer ∧
      t.alpha = (impulseState : State ℝ).alpha) ∧
    (∃ w, analyze_signal Real.sqrt (impulseState : State ℝ) = some w ∧
      w.input_buffer = (impulseState : State ℝ).input_buffer ∧
      w.output_buffer = (impulseState : State ℝ).output_buffer ∧
      w.prev_output = (impulseState : State ℝ).prev_output ∧
      w.alpha = (impulseState : State ℝ).alpha) :=
  buffers_read_only Real.sqrt impulseState impulseState_wellFormed


/-! ## The filter state after each step -/

theorem filterState_succ_eq_rawFrom {F : Type} [Field F] (a p : F) (input : List F)
    (i : Nat) : filterState a p input (i + 1) = rawFrom a p input i := by
  induction i with
  | zero => rfl
  | succ i ih => rw [filterState, ih, rawFrom]

/-- C11: from any state with buffers of 1024 samples, after the loop of the filter has
processed index `i < 1024` the state `prev_output` equals the pre-gain value `raw[i]` and
`output[i] = 0.75 * prev_output`; after the full pass `prev_output` is the pre-gain value
of the last sample, `output[1023] = 0.75 * prev_output`, and every `output[i]` is
`0.75` times the state after step `i`. -/
theorem lowpass_state_after_step {F : Type} [Field F] (s : State F) (h : s.WellFormed) :
    (∀ i, i < 1024 → ∃ t, lowpass_loop GAIN (i + 1) s = some t ∧
      t.prev_output = rawFrom s.alpha s.prev_output s.input_buffer i ∧
      t.output_buffer[i]? = some (0.75 * t.prev_output)) ∧
    (∃ u, apply_lowpass_filter s = some u ∧
      u.prev_output = rawFrom s.alpha s.prev_output s.input_buffer 1023 ∧
      u.output_buffer[1023]? = some (0.75 * u.prev_output) ∧
      ∀ i, i < 1024 →
        u.output_buffer[i]? = some (0.75 * rawFrom s.alpha s.prev_output s.input_buffer i)) := by
  have hlast : filterState s.alpha s.prev_output s.input_buffer SAMPLES =
      rawFrom s.alpha s.prev_output s.input_buffer 1023 := by
    rw [show SAMPLES = 1023 + 1 from rfl, filterState_succ_eq_rawFrom]
  have hout : ∀ i, i < 1024 →
      (lowpassAfter GAIN SAMPLES (emit s [Line.applying])).output_buffer[i]? =
        some (0.75 * rawFrom s.alpha s.prev_output s.input_buffer i) := by
    intro i hlt
    rw [lowpassAfter_output_getElem? _ _ _ _ (by rw [SAMPLES]; exact hlt), emit_alpha,
      emit_prev_output, emit_input_buffer, filterState_succ_eq_rawFrom, GAIN, mul_comm]
  constructor
  · intro i hlt
    refine ⟨_, lowpass_loop_eq GAIN s (i + 1) (by rw [h.1, SAMPLES]; omega)
      (by rw [h.2, SAMPLES]; omega), ?_, ?_⟩
    · rw [lowpassAfter_prev_output, filterState_succ_eq_rawFrom]
    · rw [lowpassAfter_output_getElem? _ _ _ _ (Nat.lt_succ_self i), lowpassAfter_prev_output,
        GAIN, mul_comm]
  · refine ⟨_, apply_lowpass_filter_eq s h.1 h.2, ?_, ?_, hout⟩
    · rw [lowpassAfter_prev_output, emit_alpha, emit_prev_output, emit_input_buffer, hlast]
    · rw [hout 1023 (by norm_num), lowpassAfter_prev_output, emit_alpha, emit_prev_output,
        emit_input_buffer, hlast]

theorem lowpass_state_after_step_witness :
    (∀ i, i < 1024 → ∃ t, lowpass_loop GAIN (i + 1) (primedState : State ℚ) = some t ∧
      t.prev_output = rawFrom (primedState : State ℚ).alpha (primedState : State ℚ).prev_output
        (primedState : State ℚ).input_buffer i ∧
      t.output_buffer[i]? = some (0.75 * t.prev_output)) ∧
    (∃ u, apply_lowpass_filter (primedState : State ℚ) = some u ∧
      u.prev_output = rawFrom (primedState : State ℚ).alpha (primedState : State ℚ).prev_output
        (primedState : State ℚ).input_buffer 1023 ∧
      u.output_buffer[1023]? = some (0.75 * u.prev_output) ∧
      ∀ i, i < 1024 →
        u.output_buffer[i]? = some (0.75 * rawFrom (primedState : State ℚ).alpha
          (primedState : State ℚ).prev_output (primedState : State ℚ).input_buffer i)) :=
  lowpass_state_after_step primedState primedState_wellFormed

/-! ## Energy of the filtered signal -/

theorem lowpassAfter_output_getD {F : Type} [Field F] (gain : F) (n : Nat) (s : State F)
    (i : Nat) (h : i < n) :
    (lowpassAfter gain n s).output_buffer.getD i 0 =
      filterState s.alpha s.prev_output s.input_buffer (i + 1) * gain := by
  rw [List.getD_eq_getElem?_getD, lowpassAfter_output_getElem? _ _ _ _ h, Option.getD_some]

theorem filterState_energy {F : Type} [LinearOrderedField F] (input : List F) (n : Nat) :
    ∑ k ∈ Finset.range n, filterState (0.1 : F) 0 input (k + 1) ^ 2 +
      9 * filterState (0.1 : F) 0 input n ^ 2 ≤
      ∑ k ∈ Finset.range n, input.getD k 0 ^ 2 := by
  induction n with
  | zero => simp [filterState]
  | succ n ih =>
    rw [Finset.sum_range_succ, Finset.sum_range_succ]
    have hstep : filterState (0.1 : F) 0 input (n + 1) =
        0.1 * input.getD n 0 + (1 - 0.1) * filterState (0.1 : F) 0 input n := rfl
    generalize filterState (0.1 : F) 0 input (n + 1) = y at hstep ⊢
    generalize filterState (0.1 : F) 0 input n = z at hstep ih
    generalize input.getD n 0 = x at hstep
    subst hstep
    have hsq := sq_nonneg (x - z)
    norm_num at *
    nlinarith [ih, hsq]

theorem lowpassAfter_sumSquares {F : Type} [Field F] (gain : F) (s : State F) :
    sumSquares (lowpassAfter gain SAMPLES s).output_buffer =
      gain ^ 2 * ∑ k ∈ Finset.range 1024,
        filterState s.alpha s.prev_output s.input_buffer (k + 1) ^ 2 := by
  rw [sumSquares, Finset.mul_sum]
  refine Finset.sum_congr rfl (fun i hi => ?_)
  rw [lowpassAfter_output_getD _ _ _ _ (by rw [SAMPLES]; exact Finset.mem_range.mp hi)]
  ring

theorem filtered_sumSquares_le {F : Type} [LinearOrderedField F] (s : State F)
    (ha : s.alpha = 0.1) (hp : s.prev_output = 0) :
    sumSquares (lowpassAfter GAIN SAMPLES (emit s [Line.applying])).output_buffer ≤
      0.75 ^ 2 * sumSquares s.input_buffer := by
  rw [lowpassAfter_sumSquares, emit_alpha, emit_prev_output, emit_input_buffer, ha, hp, GAIN]
  have h := filterState_energy s.input_buffer 1024
  have h9 : (0 : F) ≤ 9 * filterState (0.1 : F) 0 s.input_buffer 1024 ^ 2 :=
    mul_nonneg (by norm_num) (sq_nonneg _)
  exact mul_le_mul_of_nonneg_left (by unfold sumSquares; linarith) (sq_nonneg _)


theorem rms_le_of_sumSquares_le (x y : List ℝ)
    (h : sumSquares y ≤ 0.75 ^ 2 * sumSquares x) :
    rms Real.sqrt y ≤ 0.75 * rms Real.sqrt x := by
  unfold rms
  have hx : Real.sqrt (0.75 ^ 2 * (sumSquares x / 1024)) =
      0.75 * Real.sqrt (sumSquares x / 1024) := by
    rw [Real.sqrt_mul (sq_nonneg _), Real.sqrt_sq (by norm_num)]
  rw [← hx]
  apply Real.sqrt_le_sqrt
  rw [← mul_div_assoc]
  exact div_le_div_of_nonneg_right h (by norm_num)

/-- C12: energy bound of the filter.  Over the reals, from `prev_output = 0` with
`alpha = 0.1` on buffers of 1024 samples, `apply_lowpass_filter` returns with
`Σ output[i]² ≤ 0.75² * Σ input[i]²`, hence `output_rms ≤ 0.75 * input_rms`, and whenever
`input_rms > 0` the gain printed by `analyze_signal` is a number `≤ 0.75`. -/
theorem lowpass_energy_bound (s : State ℝ) (h : s.WellFormed) (ha : s.alpha = 0.1)
    (hp : s.prev_output = 0) :
    ∃ u, apply_lowpass_filter s = some u ∧ u.input_buffer = s.input_buffer ∧
      sumSquares u.output_buffer ≤ 0.75 ^ 2 * sumSquares s.input_buffer ∧
      rms Real.sqrt u.output_buffer ≤ 0.75 * rms Real.sqrt s.input_buffer ∧
      ∃ g, analyze_signal Real.sqrt u = some (emit u
          [Line.analysisHeader, Line.inputRms (rms Real.sqrt s.input_buffer),
           Line.outputRms (rms Real.sqrt u.output_buffer), Line.gain g]) ∧
        (0 < rms Real.sqrt s.input_buffer → ∃ v, g = some v ∧ v ≤ 0.75) := by
  have hu := lowpassAfter_wellFormed (GAIN : ℝ) _ (emit_wellFormed s [Line.applying] h)
  have hin : (lowpassAfter (GAIN : ℝ) SAMPLES (emit s [Line.applying])).input_buffer =
      s.input_buffer := lowpassAfter_input_buffer _ _ _
  have hsum := filtered_sumSquares_le s ha hp
  have hrms := rms_le_of_sumSquares_le _ _ hsum
  refine ⟨_, apply_lowpass_filter_eq s h.1 h.2, hin, hsum, hrms,
    fdiv (rms Real.sqrt (lowpassAfter (GAIN : ℝ) SAMPLES (emit s [Line.applying])).output_buffer)
      (rms Real.sqrt s.input_buffer), ?_, ?_⟩
  · rw [analyze_signal_eq Real.sqrt _ hu, hin]
  · intro hpos
    refine ⟨_, by rw [fdiv, if_neg (ne_of_gt hpos)], ?_⟩
    exact (div_le_iff₀ hpos).mpr hrms

theorem lowpass_energy_bound_witness :
    ∃ u, apply_lowpass_filter (impulseState : State ℝ) = some u ∧
      u.input_buffer = (impulseState : State ℝ).input_buffer ∧
      sumSquares u.output_buffer ≤ 0.75 ^ 2 * sumSquares (impulseState : State ℝ).input_buffer ∧
      rms Real.sqrt u.output_buffer ≤
        0.75 * rms Real.sqrt (impulseState : State ℝ).input_buffer ∧
      ∃ g, analyze_signal Real.sqrt u = some (emit u
          [Line.analysisHeader,
           Line.inputRms (rms Real.sqrt (impulseState : State ℝ).input_buffer),
           Line.outputRms (rms Real.sqrt u.output_buffer), Line.gain g]) ∧
        (0 < rms Real.sqrt (impulseState : State ℝ).input_buffer → ∃ v, g = some v ∧ v ≤ 0.75) :=
  lowpass_energy_bound impulseState impulseState_wellFormed rfl rfl

/-! ## Closed form and linearity of the filter -/

theorem filterState_closed {F : Type} [Field F] [CharZero F] (input : List F) (i : Nat) :
    filterState (0.1 : F) 0 input (i + 1) =
      ∑ k ∈ Finset.range (i + 1), 0.1 * 0.9 ^ (i - k) * input.getD k 0 := by
  induction i with
  | zero => simp [filterState]
  | succ i ih =>
    rw [filterState, ih, Finset.sum_range_succ _ (i + 1), Finset.mul_sum]
    have hsum : ∀ k ∈ Finset.range (i + 1),
        (1 - 0.1 : F) * (0.1 * 0.9 ^ (i - k) * input.getD k 0) =
          0.1 * 0.9 ^ (i + 1 - k) * input.getD k 0 := by
      intro k hk
      have hk' : k ≤ i := Nat.lt_succ_iff.mp (Finset.mem_range.mp hk)
      rw [Nat.succ_sub hk', pow_succ]
      norm_num
      ring
    rw [Finset.sum_congr rfl hsum, Nat.sub_self, pow_zero, mul_one, add_comm]

theorem combine_length {F : Type} [Field F] (a b : F) (x y : List F) (n : Nat)
    (hx : x.length = n) (hy : y.length = n) : (combine a b x y).length = n := by
  rw [combine, List.length_zipWith, hx, hy, Nat.min_self]

theorem combine_getD {F : Type} [Field F] (a b : F) (x y : List F)
    (h : x.length = y.length) (k : Nat) :
    (combine a b x y).getD k 0 = a * x.getD k 0 + b * y.getD k 0 := by
  simp only [combine, List.getD_eq_getElem?_getD, List.getElem?_zipWith]
  by_cases hk : k < x.length
  · have hk' : k < y.length := h ▸ hk
    simp [List.getElem?_eq_getElem hk, List.getElem?_eq_getElem hk']
  · have hx : x[k]? = none := List.getElem?_eq_none (Nat.le_of_not_lt hk)
    have hy : y[k]? = none := List.getElem?_eq_none (h ▸ Nat.le_of_not_lt hk)
    simp [hx, hy]

theorem filterState_combine {F : Type} [Field F] (c a b : F) (x y : List F)
    (h : x.length = y.length) (n : Nat) :
    filterState c 0 (combine a b x y) n =
      a * filterState c 0 x n + b * filterState c 0 y n := by
  induction n with
  | zero => simp [filterState]
  | succ n ih => rw [filterState, filterState, filterState, ih, combine_getD a b x y h]; ring

theorem combinedState_wellFormed {F : Type} [Field F] :
    (combinedState : State F).WellFormed := by
  unfold State.WellFormed combinedState State.initial
  simp only [List.length_replicate, and_true]
  exact combine_length 2 3 _ _ SAMPLES impulse_length (List.length_replicate _ _)

/-- C13: closed form and linearity.  In a field of characteristic 0, from `prev_output = 0`
with `alpha = 0.1` on buffers of 1024 samples, `apply_lowpass_filter` returns with
`output[i] = 0.75 * Σ_{k ≤ i} 0.1 * 0.9 ^ (i - k) * input[k]` for every `i < 1024`; and the
output for the input `a * x + b * y` is `a` times the output for `x` plus `b` times the
output for `y`. -/
theorem lowpass_closed_form_linear {F : Type} [Field F] [CharZero F] (a b : F)
    (sx sy sz : State F) (hx : sx.WellFormed) (hy : sy.WellFormed) (hz : sz.WellFormed)
    (hax : sx.alpha = 0.1) (hay : sy.alpha = 0.1) (haz : sz.alpha = 0.1)
    (hpx : sx.prev_output = 0) (hpy : sy.prev_output = 0) (hpz : sz.prev_output = 0)
    (hin : sz.input_buffer = combine a b sx.input_buffer sy.input_buffer) :
    ∃ tx ty tz, apply_lowpass_filter sx = some tx ∧ apply_lowpass_filter sy = some ty ∧
      apply_lowpass_filter sz = some tz ∧
      (∀ i, i < 1024 → tx.output_buffer[i]? = some (closedForm sx.input_buffer i)) ∧
      (∀ i, i < 1024 → ∃ ox oy, tx.output_buffer[i]? = some ox ∧
        ty.output_buffer[i]? = some oy ∧ tz.output_buffer[i]? = some (a * ox + b * oy)) := by
  have hlen : sx.input_buffer.length = sy.input_buffer.length := hx.1.trans hy.1.symm
  refine ⟨_, _, _, apply_lowpass_filter_eq sx hx.1 hx.2, apply_lowpass_filter_eq sy hy.1 hy.2,
    apply_lowpass_filter_eq sz hz.1 hz.2, ?_, ?_⟩
  · intro i hlt
    rw [lowpassAfter_output_getElem? _ _ _ _ (by rw [SAMPLES]; exact hlt), emit_alpha,
      emit_prev_output, emit_input_buffer, hax, hpx, filterState_closed, GAIN, closedForm,
      mul_comm]
  · intro i hlt
    have hlt' : i < SAMPLES := by rw [SAMPLES]; exact hlt
    refine ⟨_, _, lowpassAfter_output_getElem? _ _ _ _ hlt',
      lowpassAfter_output_getElem? _ _ _ _ hlt', ?_⟩
    rw [lowpassAfter_output_getElem? _ _ _ _ hlt']
    simp only [emit_alpha, emit_prev_output, emit_input_buffer]
    rw [hax, hay, haz, hpx, hpy, hpz, hin, filterState_combine _ _ _ _ _ hlen]
    congr 1
    ring

theorem lowpass_closed_form_linear_witness :
    ∃ tx ty tz, apply_lowpass_filter (impulseState : State ℚ) = some tx ∧
      apply_lowpass_filter (State.initial : State ℚ) = some ty ∧
      apply_lowpass_filter (combinedState : State ℚ) = some tz ∧
      (∀ i, i < 1024 →
        tx.output_buffer[i]? = some (closedForm (impulseState : State ℚ).input_buffer i)) ∧
      (∀ i, i < 1024 → ∃ ox oy, tx.output_buffer[i]? = some ox ∧
        ty.output_buffer[i]? = some oy ∧ tz.output_buffer[i]? = some (2 * ox + 3 * oy)) :=
  lowpass_closed_form_linear 2 3 impulseState State.initial combinedState
    impulseState_wellFormed initial_wellFormed combinedState_wellFormed rfl rfl rfl rfl rfl rfl
    rfl

/-! ## Bounded input, bounded output -/

theorem filterState_abs_le {F : Type} [LinearOrderedField F] (input : List F) (M : F)
    (n : Nat) (hM : 0 ≤ M) (hb : ∀ k, k < n → |input.getD k 0| ≤ M) :
    |filterState (0.1 : F) 0 input n| ≤ M := by
  induction n with
  | zero => simpa [filterState] using hM
  | succ n ih =>
    have hy := abs_le.mp (ih (fun k hk => hb k (Nat.lt_succ_of_lt hk)))
    have hx := abs_le.mp (hb n (Nat.lt_succ_self n))
    rw [filterState, abs_le]
    generalize filterState (0.1 : F) 0 input n = y at hy ⊢
    generalize input.getD n 0 = x at hx ⊢
    obtain ⟨hy1, hy2⟩ := hy
    obtain ⟨hx1, hx2⟩ := hx
    constructor <;> norm_num <;> linarith

theorem sumSquares_eq_zero {F : Type} [Field F] (buf : List F)
    (h : ∀ i, i < 1024 → buf.getD i 0 = 0) : sumSquares buf = 0 := by
  unfold sumSquares
  refine Finset.sum_eq_zero (fun i hi => ?_)
  rw [h i (Finset.mem_range.mp hi)]
  ring

/-- C14: bounded input, bounded output.  Over an ordered field, from `prev_output = 0`
with `alpha = 0.1` on buffers of 1024 samples whose input satisfies `|input[i]| ≤ M`,
the filter loop returns after every number `n ≤ 1024` of iterations with
`|prev_output| ≤ M`, and `apply_lowpass_filter` returns with `|output[i]| ≤ 0.75 * M` for
every `i < 1024`.  For `M = 0` (an all-zero input buffer) the output buffer is all zero
and, the square root of `0` being `0`, `analyze_signal` prints `input_rms = 0`,
`output_rms = 0` and the quotient `0 / 0`, which is not a number. -/
theorem lowpass_bounded {F : Type} [LinearOrderedField F] (sqrtf : F → F) (s : State F)
    (M : F) (h : s.WellFormed) (ha : s.alpha = 0.1) (hp : s.prev_output = 0) (hM : 0 ≤ M)
    (hb : ∀ i, i < 1024 → |s.input_buffer.getD i 0| ≤ M) (hsqrt : sqrtf 0 = 0) :
    (∀ n, n ≤ 1024 → ∃ t, lowpass_loop GAIN n s = some t ∧ |t.prev_output| ≤ M) ∧
    (∃ u, apply_lowpass_filter s = some u ∧ |u.prev_output| ≤ M ∧
      (∀ i, i < 1024 → ∃ o, u.output_buffer[i]? = some o ∧ |o| ≤ 0.75 * M) ∧
      (M = 0 → (∀ i, i < 1024 → u.output_buffer[i]? = some 0) ∧
        analyze_signal sqrtf u = some (emit u
          [Line.analysisHeader, Line.inputRms 0, Line.outputRms 0, Line.gain none]))) := by
  have hst : ∀ n, n ≤ 1024 → |filterState s.alpha s.prev_output s.input_buffer n| ≤ M := by
    intro n hn
    rw [ha, hp]
    exact filterState_abs_le _ M n hM (fun k hk => hb k (Nat.lt_of_lt_of_le hk hn))
  have hout : ∀ i, i < 1024 →
      (lowpassAfter (GAIN : F) SAMPLES (emit s [Line.applying])).output_buffer[i]? =
        some (filterState s.alpha s.prev_output s.input_buffer (i + 1) * 0.75) := by
    intro i hlt
    rw [lowpassAfter_output_getElem? _ _ _ _ (by rw [SAMPLES]; exact hlt), emit_alpha,
      emit_prev_output, emit_input_buffer, GAIN]
  have hu := lowpassAfter_wellFormed (GAIN : F) _ (emit_wellFormed s [Line.applying] h)
  constructor
  · intro n hn
    exact ⟨_, lowpass_loop_eq GAIN s n (by rw [h.1]; exact hn) (by rw [h.2]; exact hn),
      by rw [lowpassAfter_prev_output]; exact hst n hn⟩
  · refine ⟨_, apply_lowpass_filter_eq s h.1 h.2, ?_, ?_, ?_⟩
    · rw [lowpassAfter_prev_output, emit_alpha, emit_prev_output, emit_input_buffer]
      exact hst 1024 (Nat.le_refl _)
    · intro i hlt
      refine ⟨_, hout i hlt, ?_⟩
      rw [abs_mul, abs_of_pos (by norm_num : (0 : F) < 0.75), mul_comm]
      exact mul_le_mul_of_nonneg_left (hst (i + 1) hlt) (by norm_num)
    · intro hM0
      have hzero : ∀ i, i < 1024 →
          filterState s.alpha s.prev_output s.input_buffer (i + 1) = 0 := by
        intro i hlt
        have := hst (i + 1) hlt
        rw [hM0] at this
        exact abs_nonpos_iff.mp this
      have houtz : ∀ i, i < 1024 →
          (lowpassAfter (GAIN : F) SAMPLES (emit s [Line.applying])).output_buffer[i]? =
            some 0 := by
        intro i hlt
        rw [hout i hlt, hzero i hlt, zero_mul]
      have hinz : sumSquares (lowpassAfter (GAIN : F) SAMPLES
          (emit s [Line.applying])).input_buffer = 0 := by
        rw [lowpassAfter_input_buffer, emit_input_buffer]
        refine sumSquares_eq_zero _ (fun i hlt => ?_)
        have := hb i hlt
        rw [hM0] at this
        exact abs_nonpos_iff.mp this
      have hsumz : sumSquares (lowpassAfter (GAIN : F) SAMPLES
          (emit s [Line.applying])).output_buffer = 0 := by
        refine sumSquares_eq_zero _ (fun i hlt => ?_)
        rw [List.getD_eq_getElem?_getD, houtz i hlt, Option.getD_some]
      refine ⟨houtz, ?_⟩
      rw [analyze_signal_eq sqrtf _ hu, rms, rms, hinz, hsumz, zero_div, hsqrt, fdiv,
        if_pos rfl]

theorem lowpass_bounded_witness :
    (∀ n, n ≤ 1024 → ∃ t, lowpass_loop GAIN n (State.initial : State ℝ) = some t ∧
      |t.prev_output| ≤ 0) ∧
    (∃ u, apply_lowpass_filter (State.initial : State ℝ) = some u ∧ |u.prev_output| ≤ 0 ∧
      (∀ i, i < 1024 → ∃ o : ℝ, u.output_buffer[i]? = some o ∧ |o| ≤ 0.75 * 0) ∧
      ((0 : ℝ) = 0 → (∀ i, i < 1024 → u.output_buffer[i]? = some 0) ∧
        analyze_signal Real.sqrt u = some (emit u
          [Line.analysisHeader, Line.inputRms 0, Line.outputRms 0, Line.gain none]))) :=
  lowpass_bounded Real.sqrt State.initial 0 initial_wellFormed rfl rfl (le_refl 0)
    (fun i _ => by rw [State.initial, zeros_getD, abs_zero]) Real.sqrt_zero

/-! ## The ideal signal -/

theorem signal_abs_le (p : ℝ) (i : Nat) : |signal Real.sin p i| ≤ 1.5 := by
  unfold signal
  have h1 := Real.sin_le_one (2 * p * (i : ℝ) * 0.05)
  have h2 := Real.neg_one_le_sin (2 * p * (i : ℝ) * 0.05)
  have h3 := Real.sin_le_one (2 * p * (i : ℝ) * 0.3)
  have h4 := Real.neg_one_le_sin (2 * p * (i : ℝ) * 0.3)
  rw [abs_le]
  constructor <;> norm_num <;> linarith

theorem signal_pi_add_period (i : Nat) :
    signal Real.sin Real.pi (i + 20) = signal Real.sin Real.pi i := by
  unfold signal
  have e1 : 2 * Real.pi * ((i + 20 : Nat) : ℝ) * 0.05 =
      2 * Real.pi * (i : ℝ) * 0.05 + 2 * Real.pi := by
    push_cast; ring
  have e2 : 2 * Real.pi * ((i + 20 : Nat) : ℝ) * 0.3 =
      2 * Real.pi * (i : ℝ) * 0.3 + ((6 : Nat) : ℝ) * (2 * Real.pi) := by
    push_cast; ring
  rw [e1, e2, Real.sin_add_two_pi, Real.sin_add_nat_mul_two_pi]

theorem signal_pi_multiple (m : Nat) : signal Real.sin Real.pi (20 * m) = 0 := by
  unfold signal
  have e1 : 2 * Real.pi * ((20 * m : Nat) : ℝ) * 0.05 = ((2 * m : Nat) : ℝ) * Real.pi := by
    push_cast; ring
  have e2 : 2 * Real.pi * ((20 * m : Nat) : ℝ) * 0.3 = ((12 * m : Nat) : ℝ) * Real.pi := by
    push_cast; ring
  rw [e1, e2, Real.sin_nat_mul_pi, Real.sin_nat_mul_pi]
  ring

/-- C15: the ideal signal.  The generator writes the closed form `signal` at the program's
constant `PI`; taken over the reals at π, the closed form has period 20, is `0` at every
multiple of 20, hence at the three indices `0`, `100` and `500` that the driver reports,
and is bounded by `1.5` in absolute value (for any value of the constant). -/
theorem ideal_signal_periodic :
    (∀ (s : State ℝ) (i : Nat), generate_body Real.sin s i =
      (writeAt s.input_buffer i (signal Real.sin PI i)).bind
        (fun buf => some { s with input_buffer := buf })) ∧
    (∀ i, signal Real.sin Real.pi (i + 20) = signal Real.sin Real.pi i) ∧
    (∀ m, signal Real.sin Real.pi (20 * m) = 0) ∧
    signal Real.sin Real.pi 0 = 0 ∧ signal Real.sin Real.pi 100 = 0 ∧
    signal Real.sin Real.pi 500 = 0 ∧
    (∀ i, |signal Real.sin Real.pi i| ≤ 1.5) ∧ (∀ i, |signal Real.sin PI i| ≤ 1.5) :=
  ⟨fun _ _ => rfl, signal_pi_add_period, signal_pi_multiple, signal_pi_multiple 0,
    signal_pi_multiple 5, signal_pi_multiple 25, signal_abs_le Real.pi, signal_abs_le PI⟩

end AudioFilter
